import Mathlib

/-!
Shallow embedding of the AI Wargame program (`ai_wargame_skeleton.py`) and
verification of its specification claims.

The embedding mirrors the source module: machine integers are `Int`
(Python integers are unbounded), the board is a list of lists of optional
units exactly as in the source, and every stateful method becomes a pure
function from the old `Game` to the new one.  I/O (prints, log files, the
broker and the interactive CLI) has no effect on any returned value or on
the game state, so it is dropped.  The global cancellation flag
`keepLooping` is modelled in its untripped state (constantly `True`), which
is the hypothesis of every search claim below.
-/

namespace AIWargame

/-- Maximum heuristic score sentinel from the source. -/
def MAX_HEURISTIC_SCORE : Int := 2000000000

/-- Minimum heuristic score sentinel from the source. -/
def MIN_HEURISTIC_SCORE : Int := -2000000000

/-- The `class UnitType(Enum)`: the five unit types. -/
inductive UnitType where
  | AI
  | Tech
  | Virus
  | Program
  | Firewall
deriving DecidableEq, Repr

/-- Numeric value of each `UnitType` enum member. -/
def UnitType.value : UnitType → Nat
  | .AI => 0
  | .Tech => 1
  | .Virus => 2
  | .Program => 3
  | .Firewall => 4

/-- The `class Player(Enum)`: the two players. -/
inductive Player where
  | Attacker
  | Defender
deriving DecidableEq, Repr

/-- The `.name` attribute of a `Player` enum member. -/
def Player.name : Player → String
  | .Attacker => "Attacker"
  | .Defender => "Defender"

/-- The `Player.next`: the other player. -/
def Player.next : Player → Player
  | .Attacker => .Defender
  | .Defender => .Attacker

/-- The `@dataclass class Unit`: owner, type and (unbounded-integer) health. -/
structure Unit where
  player : Player := .Attacker
  type : UnitType := .Program
  health : Int := 9
deriving DecidableEq, Repr

/-- The `Unit.damage_table` class variable. -/
def damage_table : List (List Int) :=
  [[3,3,3,3,1],
   [1,1,6,1,1],
   [9,6,1,6,1],
   [3,3,3,3,1],
   [1,1,1,1,1]]

/-- The `Unit.repair_table` class variable. -/
def repair_table : List (List Int) :=
  [[0,1,1,0,0],
   [3,0,0,3,3],
   [0,0,0,0,0],
   [0,0,0,0,0],
   [0,0,0,0,0]]

/-- The `Unit.get_health`. -/
def Unit.get_health (u : Unit) : Int := u.health

/-- The `Unit.is_alive`: health strictly positive. -/
def Unit.is_alive (u : Unit) : Bool := decide (u.health > 0)

/-- The `Unit.mod_health`: add a delta, then clamp the result into `[0, 9]`. -/
def Unit.mod_health (u : Unit) (health_delta : Int) : Unit :=
  let health := u.health + health_delta
  if health < 0 then {u with health := 0}
  else if health > 9 then {u with health := 9}
  else {u with health := health}

/-- The `Unit.damage_amount`: table lookup, capped at the target's health. -/
def Unit.damage_amount (u : Unit) (target : Unit) : Int :=
  let amount := (damage_table.getD u.type.value []).getD target.type.value 0
  if target.health - amount < 0 then target.health else amount

/-- The `Unit.repair_amount`: table lookup, capped so health cannot exceed 9. -/
def Unit.repair_amount (u : Unit) (target : Unit) : Int :=
  let amount := (repair_table.getD u.type.value []).getD target.type.value 0
  if target.health + amount > 9 then 9 - target.health else amount

/-- The `@dataclass class Coord`: a (row, col) cell address; Python ints. -/
structure Coord where
  row : Int := 0
  col : Int := 0
deriving DecidableEq, Repr

/-- Python `range(lo, hi)` over integers, as a list. -/
def intRange (lo hi : Int) : List Int :=
  (List.range (hi - lo).toNat).map fun (i : Nat) => lo + (i : Int)

/-- The `Coord.iter_range`: the cells of the square of radius `dist` centered here,
in row-major order. -/
def Coord.iter_range (c : Coord) (dist : Int) : List Coord :=
  (intRange (c.row - dist) (c.row + 1 + dist)).flatMap fun row =>
    (intRange (c.col - dist) (c.col + 1 + dist)).map fun col => ⟨row, col⟩

/-- The `Coord.iter_adjacent`: up, left, down, right, in the source's order. -/
def Coord.iter_adjacent (c : Coord) : List Coord :=
  [⟨c.row - 1, c.col⟩, ⟨c.row, c.col - 1⟩, ⟨c.row + 1, c.col⟩, ⟨c.row, c.col + 1⟩]

/-- The `@dataclass class CoordPair`: a move (or rectangle) given by two coords. -/
structure CoordPair where
  src : Coord := {}
  dst : Coord := {}
deriving DecidableEq, Repr

/-- The `CoordPair.iter_rectangle`: all cells between `src` and `dst`, inclusive. -/
def CoordPair.iter_rectangle (cp : CoordPair) : List Coord :=
  (intRange cp.src.row (cp.dst.row + 1)).flatMap fun row =>
    (intRange cp.src.col (cp.dst.col + 1)).map fun col => ⟨row, col⟩

/-- The `CoordPair.from_quad`. -/
def CoordPair.from_quad (row0 col0 row1 col1 : Int) : CoordPair :=
  ⟨⟨row0, col0⟩, ⟨row1, col1⟩⟩

/-- The `CoordPair.from_dim`: the full board rectangle for a `dim`-sized board. -/
def CoordPair.from_dim (dim : Int) : CoordPair :=
  ⟨⟨0, 0⟩, ⟨dim - 1, dim - 1⟩⟩

/-- The characters removed by Python `str.strip()` with no argument. -/
def isPySpace (c : Char) : Bool :=
  c = ' ' ∨ c = '\t' ∨ c = '\n' ∨ c = Char.ofNat 13 ∨ c = Char.ofNat 11 ∨ c = Char.ofNat 12

/-- Python `s.strip()`: drop leading and trailing whitespace. -/
def pyStrip (cs : List Char) : List Char :=
  ((cs.dropWhile isPySpace).reverse.dropWhile isPySpace).reverse

/-- The separator characters the source removes with `s.replace(sep, "")`. -/
def isSepChar (c : Char) : Bool :=
  c = ' ' ∨ c = ',' ∨ c = '.' ∨ c = ':' ∨ c = ';' ∨ c = '-' ∨ c = '_'

/-- Python `alphabet.find(c)`: index of the first occurrence, or `-1`. -/
def pyFind (alphabet : List Char) (c : Char) : Int :=
  match alphabet.findIdx? (fun x => x = c) with
  | some i => (i : Int)
  | none => -1

/-- The row alphabet `"ABCDEFGHIJKLMNOPQRSTUVWXYZ"`. -/
def rowAlphabet : List Char := "ABCDEFGHIJKLMNOPQRSTUVWXYZ".toList

/-- The column alphabet `"0123456789abcdef"`. -/
def colAlphabet : List Char := "0123456789abcdef".toList

/-- The stripped form of an input string: `strip()` then remove separators. -/
def strippedInput (s : String) : List Char :=
  (pyStrip s.toList).filter fun c => isSepChar c = false

/-- The `CoordPair.from_string`: strip separators; succeed exactly on length-4
strings, decoding each character with `find` (which yields `-1` when the
character is not in the alphabet). -/
def CoordPair.from_string (s : String) : Option CoordPair :=
  let cs := strippedInput s
  if cs.length = 4 then
    some ⟨⟨pyFind rowAlphabet (cs.getD 0 ' ').toUpper, pyFind colAlphabet (cs.getD 1 ' ').toLower⟩,
          ⟨pyFind rowAlphabet (cs.getD 2 ' ').toUpper, pyFind colAlphabet (cs.getD 3 ' ').toLower⟩⟩
  else none

/-- The `@dataclass class Options`.  The fields that influence the embedded game
and search semantics; timing, CLI and broker fields (`max_time`,
`game_type`, `broker`) only drive the excluded I/O wrappers. -/
structure Options where
  dim : Int := 5
  max_depth : Option Int := some 4
  min_depth : Option Int := some 2
  alpha_beta : Bool := true
  heuristic_Option : Option Int := some 3
  max_turns : Option Int := some 100
  randomize_moves : Bool := true
deriving DecidableEq, Repr

/-- The `@dataclass class Game`.  `stats` is omitted: it only feeds post-search
reporting.  The Python fields `_attacker_has_ai`/`_defender_has_ai` lose
their leading underscore here. -/
structure Game where
  board : List (List (Option Unit)) := []
  next_player : Player := .Attacker
  turns_played : Int := 0
  options : Options := {}
  attacker_has_ai : Bool := true
  defender_has_ai : Bool := true
  simulation : Bool := false
deriving DecidableEq, Repr

/-- The `Game.is_valid_coord`: inside the `dim × dim` board. -/
def Game.is_valid_coord (g : Game) (coord : Coord) : Bool :=
  if coord.row < 0 ∨ coord.row ≥ g.options.dim ∨ coord.col < 0 ∨ coord.col ≥ g.options.dim then
    false
  else true

/-- The `Game.get`: contents of a cell, `none` outside the board. -/
def Game.get (g : Game) (coord : Coord) : Option Unit :=
  if g.is_valid_coord coord then
    (g.board.getD coord.row.toNat []).getD coord.col.toNat none
  else none

/-- The `Game.set`: write a cell (no-op outside the board). -/
def Game.set (g : Game) (coord : Coord) (unit : Option Unit) : Game :=
  if g.is_valid_coord coord then
    {g with board :=
      g.board.set coord.row.toNat ((g.board.getD coord.row.toNat []).set coord.col.toNat unit)}
  else g

/-- The `Game.remove_dead`: delete a dead unit and update the per-player AI flag. -/
def Game.remove_dead (g : Game) (coord : Coord) : Game :=
  match g.get coord with
  | some unit =>
    if unit.is_alive then g
    else
      let g2 := g.set coord none
      if unit.type = UnitType.AI then
        if unit.player = Player.Attacker then {g2 with attacker_has_ai := false}
        else {g2 with defender_has_ai := false}
      else g2
  | none => g

/-- The `Game.mod_health`: clamp-adjust the health of the unit at `coord`, then
remove it if dead. -/
def Game.mod_health (g : Game) (coord : Coord) (health_delta : Int) : Game :=
  match g.get coord with
  | some target => (g.set coord (some (target.mod_health health_delta))).remove_dead coord
  | none => g

/-- The `Game.is_valid_move`: classify a proposed move.  Faithful to the source's
control flow, including two quirks: (a) in the empty-destination branch the
`elif src_unit_type == "Tech" or src_unit_type == "Virus"` tests compare a
`UnitType` against a string and can never hold, and are nested under the
AI/Firewall/Program branch, so every path that does not return inside the
branch falls through to the final `return (False, "")`; (b) the
self-destruct test compares the two cell contents with dataclass equality,
not the two coordinates. -/
def Game.is_valid_move (g : Game) (coords : CoordPair) : Bool × String :=
  if ¬ (g.is_valid_coord coords.src = true) ∨ ¬ (g.is_valid_coord coords.dst = true) then
    (false, "")
  else
    match g.get coords.src with
    | none => (false, "")
    | some unit1 =>
      if unit1.player ≠ g.next_player then (false, "")
      else
        match g.get coords.dst with
        | none =>
          let src_unit_type := unit1.type
          let adjacent_engaged_coords : List Coord :=
            [⟨coords.src.row - 1, coords.src.col⟩, ⟨coords.src.row, coords.src.col - 1⟩,
             ⟨coords.src.row + 1, coords.src.col⟩, ⟨coords.src.row, coords.src.col + 1⟩]
          let engaged_To_Enemy :=
            adjacent_engaged_coords.any fun c =>
              match g.get c with
              | some adjacent_unit => adjacent_unit.player ≠ unit1.player
              | none => false
          let total_Row_Move := |coords.dst.row - coords.src.row|
          let total_Col_Move := |coords.dst.col - coords.src.col|
          if (total_Row_Move = 0 ∧ total_Col_Move = 1) ∨ (total_Row_Move = 1 ∧ total_Col_Move = 0) then
            if src_unit_type = UnitType.AI ∨ src_unit_type = UnitType.Firewall ∨
                src_unit_type = UnitType.Program then
              if unit1.player.name = "Attacker" then
                if coords.dst.row < coords.src.row ∨ coords.dst.col < coords.src.col then
                  if engaged_To_Enemy then (false, "") else (true, "move")
                else (false, "")
              else
                if coords.dst.row > coords.src.row ∨ coords.dst.col > coords.src.col then
                  if engaged_To_Enemy then (false, "") else (true, "move")
                else (false, "")
            else (false, "")
          else (false, "")
        | some unit2 =>
          if unit1.player.name ≠ unit2.player.name then (true, "attack")
          else if unit2.health < 9 ∧
              ((unit1.type = UnitType.AI ∧ unit2.type = UnitType.Virus) ∨
               (unit1.type = UnitType.AI ∧ unit2.type = UnitType.Tech) ∨
               (unit1.type = UnitType.Tech ∧ unit2.type = UnitType.AI) ∨
               (unit1.type = UnitType.Tech ∧ unit2.type = UnitType.Firewall) ∨
               (unit1.type = UnitType.Tech ∧ unit2.type = UnitType.Program)) then
            (true, "repair")
          else if g.get coords.src = g.get coords.dst then (true, "self-destruct")
          else (false, "")

/-- The `Game.perform_move`: validate and apply.  The unreachable `match`
defaults cover cell contents that the classification already guarantees
(Python would have raised on them). -/
def Game.perform_move (g : Game) (coords : CoordPair) : Game × (Bool × String) :=
  let current_Player := g.get coords.src
  let opponent := g.get coords.dst
  let va := g.is_valid_move coords
  if va.1 = true ∧ va.2 = "move" then
    ((g.set coords.dst (g.get coords.src)).set coords.src none, (true, ""))
  else if va.1 = true ∧ va.2 = "attack" then
    match current_Player, opponent with
    | some cp, some op =>
      ((g.mod_health coords.dst (-(cp.damage_amount op))).mod_health coords.src
          (-(op.damage_amount cp)), (true, ""))
    | _, _ => (g, (true, ""))
  else if va.1 = true ∧ va.2 = "repair" then
    match current_Player, opponent with
    | some cp, some op =>
      (g.set coords.dst (some (op.mod_health (cp.repair_amount op))), (true, ""))
    | _, _ => (g, (true, ""))
  else if va.1 = true ∧ va.2 = "self-destruct" then
    let g1 := g.mod_health coords.src (-9)
    let g2 := (coords.src.iter_range 1).foldl
      (fun acc c =>
        (if (acc.get c).isSome then acc.mod_health c (-2) else acc).remove_dead c) g1
    (g2, (true, ""))
  else (g, (false, "invalid move"))

/-- The `Game.next_turn`: switch the active player and count the turn. -/
def Game.next_turn (g : Game) : Game :=
  {g with next_player := g.next_player.next, turns_played := g.turns_played + 1}

/-- The `Game.player_units`: the units of a player in board scan order. -/
def Game.player_units (g : Game) (player : Player) : List (Coord × Unit) :=
  ((CoordPair.from_dim g.options.dim).iter_rectangle).filterMap fun coord =>
    match g.get coord with
    | some u => if u.player = player then some (coord, u) else none
    | none => none

/-- The `Game.has_winner`: turn limit first, then the AI-presence flags. -/
def Game.has_winner (g : Game) : Option Player :=
  if (match g.options.max_turns with
      | some mt => decide (g.turns_played ≥ mt)
      | none => false) then
    some Player.Defender
  else if g.attacker_has_ai then
    if g.defender_has_ai then none else some Player.Attacker
  else some Player.Defender

/-- The five per-type accumulators each heuristic loop carries
(`VPi, TPi, FPi, PPi, AIPi` in the source). -/
structure TypeCounts where
  v : Int := 0
  t : Int := 0
  f : Int := 0
  p : Int := 0
  ai : Int := 0
deriving DecidableEq, Repr

/-- One step of the `e0` counting loops. -/
def e0Step (acc : TypeCounts) (cu : Coord × Unit) : TypeCounts :=
  match cu.2.type with
  | .Virus => {acc with v := acc.v + 1}
  | .Tech => {acc with t := acc.t + 1}
  | .Firewall => {acc with f := acc.f + 1}
  | .Program => {acc with p := acc.p + 1}
  | .AI => {acc with ai := acc.ai + 1}

/-- The `Game.e0_heuristic_eval`: weighted unit counts, sign-flipped for the
Defender to move. -/
def Game.e0_heuristic_eval (g : Game) : Int :=
  let a := (g.player_units Player.Attacker).foldl e0Step {}
  let d := (g.player_units Player.Defender).foldl e0Step {}
  if g.next_player = Player.Attacker then
    (3*a.v + 3*a.t + 3*a.f + 3*a.p + 9999*a.ai) - (3*d.v + 3*d.t + 3*d.f + 3*d.p + 9999*d.ai)
  else
    (3*d.v + 3*d.t + 3*d.f + 3*d.p + 9999*d.ai) - (3*a.v + 3*a.t + 3*a.f + 3*a.p + 9999*a.ai)

/-- One step of the `e2` health-sum loops. -/
def e2Step (acc : TypeCounts) (cu : Coord × Unit) : TypeCounts :=
  match cu.2.type with
  | .Virus => {acc with v := acc.v + cu.2.get_health}
  | .Tech => {acc with t := acc.t + cu.2.get_health}
  | .Firewall => {acc with f := acc.f + cu.2.get_health}
  | .Program => {acc with p := acc.p + cu.2.get_health}
  | .AI => {acc with ai := acc.ai + cu.2.get_health}

/-- The `Game.e2_heuristic_eval`: weighted per-type health sums, sign-flipped for
the Defender to move. -/
def Game.e2_heuristic_eval (g : Game) : Int :=
  let a := (g.player_units Player.Attacker).foldl e2Step {}
  let d := (g.player_units Player.Defender).foldl e2Step {}
  if g.next_player = Player.Attacker then
    (20*a.v + 10*a.t + 1*a.f + 1*a.p + 999*a.ai) - (20*d.v + 10*d.t + 1*d.f + 1*d.p + 999*d.ai)
  else
    (20*d.v + 10*d.t + 1*d.f + 1*d.p + 999*d.ai) - (20*a.v + 10*a.t + 1*a.f + 1*a.p + 999*a.ai)

/-- One step of the inner adjacency loop of `e1`, for the side whose units
belong to `p` and whose AI unit is `aiUnit`.  The source writes this loop
twice (with `elif` chains for the Attacker and mutually exclusive separate
`if`s for the Defender); both behave as this single match. -/
def e1AdjStep (g : Game) (p : Player) (aiUnit : Unit) (acc : TypeCounts) (ac : Coord) :
    TypeCounts :=
  match g.get ac with
  | some adj =>
    if adj.player = p then
      match adj.type with
      | .Virus => {acc with v := acc.v + 100*adj.get_health, ai := acc.ai + 100*adj.get_health}
      | .Tech => {acc with t := acc.t + 100*adj.get_health, ai := acc.ai + 100*adj.get_health}
      | .Firewall => {acc with f := acc.f + 50*adj.get_health, ai := acc.ai + 50*adj.get_health}
      | .Program => {acc with p := acc.p + 50*adj.get_health, ai := acc.ai + 50*adj.get_health}
      | .AI => acc
    else
      match adj.type with
      | .Virus => {acc with v := acc.v - 50*adj.get_health}
      | .Tech => {acc with t := acc.t - 50*adj.get_health}
      | .Firewall => {acc with f := acc.f - 25*adj.get_health}
      | .Program => {acc with p := acc.p - 25*adj.get_health}
      | .AI => acc
  | none => {acc with ai := acc.ai - 100*aiUnit.get_health}

/-- One step of the outer unit loop of `e1` for side `p`. -/
def e1UnitStep (g : Game) (p : Player) (acc : TypeCounts) (cu : Coord × Unit) : TypeCounts :=
  match cu.2.type with
  | .Virus => {acc with v := acc.v + 1}
  | .Tech => {acc with t := acc.t + 1}
  | .Firewall => {acc with f := acc.f + 1}
  | .Program => {acc with p := acc.p + 1}
  | .AI =>
    (cu.1.iter_adjacent).foldl (e1AdjStep g p cu.2)
      {acc with ai := acc.ai + 999*cu.2.get_health}

/-- The accumulators of one side's `e1` loop. -/
def e1Side (g : Game) (p : Player) : TypeCounts :=
  (g.player_units p).foldl (e1UnitStep g p) {}

/-- The `Game.e1_heuristic_protectAI`: AI-protection heuristic, sign-flipped for
the Defender to move. -/
def Game.e1_heuristic_protectAI (g : Game) : Int :=
  let a := e1Side g Player.Attacker
  let d := e1Side g Player.Defender
  if g.next_player = Player.Attacker then
    (a.v + a.t + a.f + a.p + a.ai) - (d.v + d.t + d.f + d.p + d.ai)
  else
    (d.v + d.t + d.f + d.p + d.ai) - (a.v + a.t + a.f + a.p + a.ai)

/-- The depth-0 heuristic dispatch that `minimax` and `alphabeta` both
perform: option 2 is `e2`, option 1 is `e1`, anything else (including the
default 3) is `e0`. -/
def Game.heuristic_value (g : Game) : Int :=
  if g.options.heuristic_Option = some 2 then g.e2_heuristic_eval
  else if g.options.heuristic_Option = some 1 then g.e1_heuristic_protectAI
  else g.e0_heuristic_eval

/-- The `Game.move_candidates`: for each of the active player's units, the four
adjacent destinations that classify as valid, then the unit's own cell,
which is yielded without being tested. -/
def Game.move_candidates (g : Game) : List CoordPair :=
  (g.player_units g.next_player).flatMap fun su =>
    ((su.1.iter_adjacent).filterMap fun dst =>
      if (g.is_valid_move ⟨su.1, dst⟩).1 then some (⟨su.1, dst⟩ : CoordPair) else none)
    ++ [⟨su.1, su.1⟩]

/-- The clone-and-apply step both search loops perform on each candidate:
clone the board, mark the clone as a simulation, apply the move. -/
def Game.simulate_move (g : Game) (move : CoordPair) : Game :=
  (({g with simulation := true}).perform_move move).1

/-- The `Game.minimax` with the cancellation flag untripped.  The evaluation
counters (`eval_states`, `evals_per_depth`) feed reporting only and are
omitted. -/
def Game.minimax (g : Game) : Nat → Bool → Int × Option CoordPair
  | 0, _ => (g.heuristic_value, none)
  | depth + 1, true =>
    g.move_candidates.foldl
      (fun acc move =>
        let ev := ((g.simulate_move move).minimax depth false).1
        if ev > acc.1 then (ev, some move) else acc)
      (MIN_HEURISTIC_SCORE, none)
  | depth + 1, false =>
    g.move_candidates.foldl
      (fun acc move =>
        let ev := ((g.simulate_move move).minimax depth true).1
        if ev < acc.1 then (ev, some move) else acc)
      (MAX_HEURISTIC_SCORE, none)

/-- The maximizing loop of `Game.alphabeta`: `f` evaluates a child at the
next depth, `beta` is fixed, and the running `alpha`, best value and best
move thread through; the loop stops early once `beta <= alpha`. -/
def Game.alphabeta_max_loop (g : Game) (f : Game → Int → Int → Int × Option CoordPair)
    (beta : Int) : List CoordPair → Int → Option CoordPair → Int → Int × Option CoordPair
  | [], max_eval, best_move, _ => (max_eval, best_move)
  | move :: moves, max_eval, best_move, alpha =>
    let ev := (f (g.simulate_move move) alpha beta).1
    let max_eval2 := if ev > max_eval then ev else max_eval
    let best_move2 := if ev > max_eval then some move else best_move
    let alpha2 := max alpha ev
    if beta ≤ alpha2 then (max_eval2, best_move2)
    else g.alphabeta_max_loop f beta moves max_eval2 best_move2 alpha2

/-- The minimizing loop of `Game.alphabeta`, mirror of the maximizing one. -/
def Game.alphabeta_min_loop (g : Game) (f : Game → Int → Int → Int × Option CoordPair)
    (alpha : Int) : List CoordPair → Int → Option CoordPair → Int → Int × Option CoordPair
  | [], min_eval, best_move, _ => (min_eval, best_move)
  | move :: moves, min_eval, best_move, beta =>
    let ev := (f (g.simulate_move move) alpha beta).1
    let min_eval2 := if ev < min_eval then ev else min_eval
    let best_move2 := if ev < min_eval then some move else best_move
    let beta2 := min beta ev
    if beta2 ≤ alpha then (min_eval2, best_move2)
    else g.alphabeta_min_loop f alpha moves min_eval2 best_move2 beta2

/-- The `Game.alphabeta` with the cancellation flag untripped. -/
def Game.alphabeta (g : Game) : Nat → Int → Int → Bool → Int × Option CoordPair
  | 0, _, _, _ => (g.heuristic_value, none)
  | depth + 1, alpha, beta, true =>
    g.alphabeta_max_loop (fun g2 a b => g2.alphabeta depth a b false) beta
      g.move_candidates MIN_HEURISTIC_SCORE none alpha
  | depth + 1, alpha, beta, false =>
    g.alphabeta_min_loop (fun g2 a b => g2.alphabeta depth a b true) alpha
      g.move_candidates MAX_HEURISTIC_SCORE none beta

/-! ### Derived notions used by the verification -/

/-- The candidate sequence as the specification describes it: for each of
the active player's units in board scan order, the destinations up, left,
down, right and then the unit's own cell, each tested with the classifier
and kept when it is not Illegal.  (The source tests only the four adjacent
destinations and yields the own-cell move untested.) -/
def candidatesSpec (g : Game) : List CoordPair :=
  (g.player_units g.next_player).flatMap fun su =>
    ([⟨su.1.row - 1, su.1.col⟩, ⟨su.1.row, su.1.col - 1⟩,
      ⟨su.1.row + 1, su.1.col⟩, ⟨su.1.row, su.1.col + 1⟩, su.1] : List Coord).filterMap
      fun dst =>
        if (g.is_valid_move ⟨su.1, dst⟩).1 then some (⟨su.1, dst⟩ : CoordPair) else none

/-- The effect of the self-destruct blast on one cell: 2 damage (clamped)
if occupied, then removal when dead. -/
def blastCell : Option Unit → Option Unit
  | none => none
  | some v =>
    let v2 := v.mod_health (-2)
    if v2.is_alive then some v2 else none

/-- Sum of the absolute values of the five accumulators; used to bound the
heuristics. -/
def absSum (t : TypeCounts) : Nat :=
  t.v.natAbs + t.t.natAbs + t.f.natAbs + t.p.natAbs + t.ai.natAbs

/-- A cell holds either nothing or a unit whose health lies in `[0, 9]`. -/
def cellOK : Option Unit → Bool
  | none => true
  | some u => decide (0 ≤ u.health ∧ u.health ≤ 9)

/-- The stored board really is `dim × dim` (as `Game.__post_init__` builds it
and every move preserves). -/
def boardWF (g : Game) : Prop :=
  g.board.length = g.options.dim.toNat ∧ ∀ row ∈ g.board, row.length = g.options.dim.toNat

/-- Every stored unit's health lies in `[0, 9]`. -/
def healthsWF (g : Game) : Prop :=
  ∀ row ∈ g.board, ∀ cell ∈ row, cellOK cell = true

/-- Invariant of every reachable game state: the board has its declared
shape, healths are clamped, and the dimension is at most 26 (the source
caps it at 26 rows by the row-letter encoding; the actual game uses 5).
`Game.perform_move` preserves it. -/
def invGame (g : Game) : Prop :=
  boardWF g ∧ healthsWF g ∧ g.options.dim ≤ 26

instance decBoardWF (g : Game) : Decidable (boardWF g) := by
  unfold boardWF
  infer_instance

instance decHealthsWF (g : Game) : Decidable (healthsWF g) := by
  unfold healthsWF
  infer_instance

instance decInvGame (g : Game) : Decidable (invGame g) := by
  unfold invGame
  infer_instance

/-! ### Concrete states used as failing inputs and witnesses -/

/-- An empty board row for 5×5 examples. -/
def emptyRow : List (Option Unit) := [none, none, none, none, none]

/-- A 5×5 game whose only unit is an Attacker Virus at (2,2). -/
def exampleVirusGame : Game :=
  { board := [emptyRow, emptyRow,
              [none, none, some ⟨Player.Attacker, UnitType.Virus, 9⟩, none, none],
              emptyRow, emptyRow] }

/-- A 5×5 game with two structurally equal Attacker Virus units at (0,0)
and (0,1). -/
def exampleTwinVirusGame : Game :=
  { board := [[some ⟨Player.Attacker, UnitType.Virus, 9⟩,
               some ⟨Player.Attacker, UnitType.Virus, 9⟩, none, none, none],
              emptyRow, emptyRow, emptyRow, emptyRow] }

/-- A 5×5 game whose only unit is an Attacker AI at (2,2). -/
def exampleAIGame : Game :=
  { board := [emptyRow, emptyRow,
              [none, none, some ⟨Player.Attacker, UnitType.AI, 9⟩, none, none],
              emptyRow, emptyRow] }

/-- A 1×1 game in which both AI-presence flags are already false. -/
def exampleBothAIDeadGame : Game :=
  { board := [[none]]
    options := {dim := 1}
    attacker_has_ai := false
    defender_has_ai := false }

/-- A 5×5 game with no units at all. -/
def exampleEmptyGame : Game :=
  { board := [emptyRow, emptyRow, emptyRow, emptyRow, emptyRow] }

/-- The spec's blast scenario: a unit at (2,2) surrounded by 8 units of
health 5. -/
def exampleBlastGame : Game :=
  { board := [emptyRow,
              [none, some ⟨Player.Defender, UnitType.Program, 5⟩,
               some ⟨Player.Defender, UnitType.Program, 5⟩,
               some ⟨Player.Defender, UnitType.Program, 5⟩, none],
              [none, some ⟨Player.Defender, UnitType.Program, 5⟩,
               some ⟨Player.Attacker, UnitType.Program, 9⟩,
               some ⟨Player.Defender, UnitType.Program, 5⟩, none],
              [none, some ⟨Player.Defender, UnitType.Program, 5⟩,
               some ⟨Player.Defender, UnitType.Program, 5⟩,
               some ⟨Player.Defender, UnitType.Program, 5⟩, none],
              emptyRow] }

/-- A sample unit for witness statements. -/
def exampleUnit : Unit := ⟨Player.Attacker, UnitType.Virus, 9⟩

/-- A sample list of health deltas for witness statements. -/
def exampleDeltas : List Int := [-3, 100, -100]

/-! ## Theorems -/

/-- The health reached by `Unit.mod_health`, as a plain clamp formula. -/
theorem mod_health_health (u : Unit) (d : Int) :
    (u.mod_health d).health =
      if u.health + d < 0 then 0 else if u.health + d > 9 then 9 else u.health + d := by
  unfold Unit.mod_health
  dsimp only
  split_ifs <;> rfl

/-- The `Unit.mod_health` always lands in `[0, 9]`, whatever the starting
health and delta. -/
theorem mod_health_mem (u : Unit) (d : Int) :
    0 ≤ (u.mod_health d).health ∧ (u.mod_health d).health ≤ 9 := by
  rw [mod_health_health]
  split_ifs <;> omega

/-- Folding any list of deltas keeps health in `[0, 9]` once it starts
there. -/
theorem foldl_mod_health_mem (ds : List Int) (u : Unit) (h0 : 0 ≤ u.health)
    (h9 : u.health ≤ 9) :
    0 ≤ (ds.foldl Unit.mod_health u).health ∧ (ds.foldl Unit.mod_health u).health ≤ 9 := by
  induction ds generalizing u with
  | nil => exact ⟨h0, h9⟩
  | cons d ds ih => exact ih (u.mod_health d) (mod_health_mem u d).1 (mod_health_mem u d).2

/-- C9: starting from clamped health, every finite sequence of `mod_health`
deltas leaves health in `[0, 9]`; in particular a `damage_amount` hit never
drives health below 0 and a `repair_amount` boost never exceeds 9. -/
theorem claim_c9_health_clamp (u : Unit) (ds : List Int) (h0 : 0 ≤ u.health)
    (h9 : u.health ≤ 9) :
    (0 ≤ (ds.foldl Unit.mod_health u).health ∧ (ds.foldl Unit.mod_health u).health ≤ 9) ∧
    ∀ a t : Unit, 0 ≤ (t.mod_health (-(a.damage_amount t))).health ∧
      (t.mod_health (a.repair_amount t)).health ≤ 9 :=
  ⟨foldl_mod_health_mem ds u h0 h9,
   fun a t => ⟨(mod_health_mem t (-(a.damage_amount t))).1,
               (mod_health_mem t (a.repair_amount t)).2⟩⟩

/-- Witness for C9 at a concrete unit and delta sequence. -/
theorem claim_c9_health_clamp_witness :
    (0 ≤ exampleUnit.health ∧ exampleUnit.health ≤ 9) ∧
    (0 ≤ (exampleDeltas.foldl Unit.mod_health exampleUnit).health ∧
      (exampleDeltas.foldl Unit.mod_health exampleUnit).health ≤ 9) ∧
    ∀ a t : Unit, 0 ≤ (t.mod_health (-(a.damage_amount t))).health ∧
      (t.mod_health (a.repair_amount t)).health ≤ 9 :=
  ⟨by decide, claim_c9_health_clamp exampleUnit exampleDeltas (by decide) (by decide)⟩

/-- C1: the code rejects every empty-cell step of a Tech or Virus unit.
At the failing input — an Attacker Virus at (2,2) of an otherwise empty
5×5 board — all four adjacent moves onto empty in-bounds cells classify as
Illegal `(False, "")`, although the claim (and the game rules) say they
are valid Moves: the source's Tech/Virus test is nested inside the
AI/Firewall/Program branch and compares the enum against a string, so it
never fires. -/
theorem claim_c1_failing_input :
    exampleVirusGame.get ⟨2, 2⟩ = some ⟨Player.Attacker, UnitType.Virus, 9⟩ ∧
    exampleVirusGame.next_player = Player.Attacker ∧
    (exampleVirusGame.get ⟨1, 2⟩ = none ∧
      exampleVirusGame.is_valid_move ⟨⟨2, 2⟩, ⟨1, 2⟩⟩ = (false, "")) ∧
    (exampleVirusGame.get ⟨2, 1⟩ = none ∧
      exampleVirusGame.is_valid_move ⟨⟨2, 2⟩, ⟨2, 1⟩⟩ = (false, "")) ∧
    (exampleVirusGame.get ⟨3, 2⟩ = none ∧
      exampleVirusGame.is_valid_move ⟨⟨2, 2⟩, ⟨3, 2⟩⟩ = (false, "")) ∧
    (exampleVirusGame.get ⟨2, 3⟩ = none ∧
      exampleVirusGame.is_valid_move ⟨⟨2, 2⟩, ⟨2, 3⟩⟩ = (false, "")) := by decide

/-- C2: at the failing input — two structurally equal Attacker Virus units
at (0,0) and (0,1), both at full health so the repair branch cannot fire —
the classifier reports SelfDestruct although `src ≠ dst`; the source
compares the two cells' units with dataclass equality instead of comparing
the coordinates. -/
theorem claim_c2_failing_input :
    (⟨0, 0⟩ : Coord) ≠ ⟨0, 1⟩ ∧
    exampleTwinVirusGame.get ⟨0, 0⟩ = some ⟨Player.Attacker, UnitType.Virus, 9⟩ ∧
    exampleTwinVirusGame.get ⟨0, 1⟩ = some ⟨Player.Attacker, UnitType.Virus, 9⟩ ∧
    exampleTwinVirusGame.next_player = Player.Attacker ∧
    exampleTwinVirusGame.is_valid_move ⟨⟨0, 0⟩, ⟨0, 1⟩⟩ = (true, "self-destruct") := by decide

/-- C8 counterexample: a 4-character string of characters outside both
alphabets does not make `from_string` fail; it decodes to the pair of
`find` failures `(-1, -1), (-1, -1)`. -/
theorem claim_c8_counterexample :
    CoordPair.from_string "!!!!" = some ⟨⟨-1, -1⟩, ⟨-1, -1⟩⟩ ∧
    ¬ ('!' ∈ rowAlphabet) ∧ ¬ ('!' ∈ colAlphabet) ∧
    (strippedInput "!!!!").length = 4 := by decide

/-- C5 counterexample: with both AI-presence flags false and the turn limit
not reached, `has_winner` answers Defender, not Attacker, although the
Defender's AI has been removed. -/
theorem claim_c5_counterexample :
    exampleBothAIDeadGame.defender_has_ai = false ∧
    exampleBothAIDeadGame.options.max_turns = some 100 ∧
    exampleBothAIDeadGame.turns_played < 100 ∧
    exampleBothAIDeadGame.has_winner ≠ some Player.Attacker ∧
    exampleBothAIDeadGame.has_winner = some Player.Defender := by decide

/-- C4 counterexample: on a board with no candidate moves, a depth-1 search
returns the sentinel `MIN_HEURISTIC_SCORE`, not the heuristic value (which
is 0 here). -/
theorem claim_c4_counterexample :
    exampleEmptyGame.move_candidates = [] ∧
    exampleEmptyGame.heuristic_value = 0 ∧
    exampleEmptyGame.minimax 1 true = (MIN_HEURISTIC_SCORE, none) ∧
    exampleEmptyGame.alphabeta 1 MIN_HEURISTIC_SCORE MAX_HEURISTIC_SCORE true =
      (MIN_HEURISTIC_SCORE, none) ∧
    (exampleEmptyGame.minimax 1 true).1 ≠ exampleEmptyGame.heuristic_value ∧
    (exampleEmptyGame.alphabeta 1 MIN_HEURISTIC_SCORE MAX_HEURISTIC_SCORE true).1 ≠
      exampleEmptyGame.heuristic_value := by decide

/-- C4 amended: when the active player has no candidate moves, a
positive-depth search returns the sentinel bound for its role —
`MIN_HEURISTIC_SCORE` when maximizing, `MAX_HEURISTIC_SCORE` when
minimizing — with no move, for both `minimax` and `alphabeta`. -/
theorem claim_c4_amended (g : Game) (d : Nat) (h : g.move_candidates = []) :
    g.minimax (d + 1) true = (MIN_HEURISTIC_SCORE, none) ∧
    g.minimax (d + 1) false = (MAX_HEURISTIC_SCORE, none) ∧
    ∀ alpha beta, g.alphabeta (d + 1) alpha beta true = (MIN_HEURISTIC_SCORE, none) ∧
      g.alphabeta (d + 1) alpha beta false = (MAX_HEURISTIC_SCORE, none) := by
  refine ⟨?_, ?_, fun alpha beta => ⟨?_, ?_⟩⟩ <;>
    simp [Game.minimax, Game.alphabeta, h, Game.alphabeta_max_loop, Game.alphabeta_min_loop]

/-- Witness for the amended C4 at the empty 5×5 board, depth 1. -/
theorem claim_c4_amended_witness :
    exampleEmptyGame.move_candidates = [] ∧
    (exampleEmptyGame.minimax 1 true = (MIN_HEURISTIC_SCORE, none) ∧
     exampleEmptyGame.minimax 1 false = (MAX_HEURISTIC_SCORE, none) ∧
     ∀ alpha beta, exampleEmptyGame.alphabeta 1 alpha beta true = (MIN_HEURISTIC_SCORE, none) ∧
       exampleEmptyGame.alphabeta 1 alpha beta false = (MAX_HEURISTIC_SCORE, none)) :=
  ⟨by decide, claim_c4_amended exampleEmptyGame 0 (by decide)⟩

/-- A successful `findIdx?` yields an index below the list length. -/
theorem findIdx?_some_lt {α : Type} (p : α → Bool) (l : List α) (j : Nat)
    (h : l.findIdx? p = some j) : j < l.length := by
  induction l generalizing j with
  | nil => simp at h
  | cons a l ih =>
    rw [List.findIdx?_cons] at h
    by_cases hp : p a = true
    · simp [hp] at h
      simp only [List.length_cons]
      omega
    · simp [hp] at h
      obtain ⟨a2, ha2, he⟩ := h
      have := ih a2 ha2
      simp only [List.length_cons]
      omega

/-- The `pyFind` fails (gives `-1`) exactly on characters outside the list. -/
theorem pyFind_eq_neg_one_iff (l : List Char) (c : Char) : pyFind l c = -1 ↔ c ∉ l := by
  unfold pyFind
  cases hf : l.findIdx? (fun x => x = c) with
  | none =>
    rw [List.findIdx?_eq_none_iff] at hf
    simp only [true_iff]
    intro hc
    simpa using hf c hc
  | some j =>
    constructor
    · intro hj
      have hj2 : (j : Int) = -1 := hj
      omega
    · intro hc
      exfalso
      have hn : l.findIdx? (fun x => x = c) = none := by
        rw [List.findIdx?_eq_none_iff]
        intro x hx
        simp only [decide_eq_false_iff_not]
        intro he
        exact hc (he ▸ hx)
      rw [hf] at hn
      exact Option.some_ne_none j hn

/-- The `pyFind` on a member is a valid index into the list. -/
theorem pyFind_mem_bounds (l : List Char) (c : Char) (h : c ∈ l) :
    0 ≤ pyFind l c ∧ pyFind l c < l.length := by
  unfold pyFind
  cases hf : l.findIdx? (fun x => x = c) with
  | none =>
    rw [List.findIdx?_eq_none_iff] at hf
    simpa using hf c h
  | some j =>
    have := findIdx?_some_lt (fun x => x = c) l j hf
    constructor
    · show (0 : Int) ≤ (j : Int)
      exact_mod_cast Nat.zero_le j
    · show (j : Int) < (l.length : Int)
      exact_mod_cast this

/-- C8 amended: decoding fails (returns nothing) exactly when the stripped
string is not 4 characters long.  A length-4 string always decodes to the
pair of alphabet indices, where a character outside the row or column
alphabet yields the index `-1` (an off-board coordinate) instead of a
failure, and a character inside it yields its valid index. -/
theorem claim_c8_amended (s : String) :
    (CoordPair.from_string s = none ↔ (strippedInput s).length ≠ 4) ∧
    (∀ cp, CoordPair.from_string s = some cp →
      (strippedInput s).length = 4 ∧
      cp = ⟨⟨pyFind rowAlphabet ((strippedInput s).getD 0 ' ').toUpper,
             pyFind colAlphabet ((strippedInput s).getD 1 ' ').toLower⟩,
            ⟨pyFind rowAlphabet ((strippedInput s).getD 2 ' ').toUpper,
             pyFind colAlphabet ((strippedInput s).getD 3 ' ').toLower⟩⟩) ∧
    (∀ c, pyFind rowAlphabet c = -1 ↔ c ∉ rowAlphabet) ∧
    (∀ c, pyFind colAlphabet c = -1 ↔ c ∉ colAlphabet) ∧
    (∀ c, c ∈ rowAlphabet → 0 ≤ pyFind rowAlphabet c ∧ pyFind rowAlphabet c < 26) ∧
    (∀ c, c ∈ colAlphabet → 0 ≤ pyFind colAlphabet c ∧ pyFind colAlphabet c < 16) := by
  refine ⟨?_, ?_, fun c => pyFind_eq_neg_one_iff rowAlphabet c,
    fun c => pyFind_eq_neg_one_iff colAlphabet c, ?_, ?_⟩
  · unfold CoordPair.from_string
    dsimp only
    split_ifs with h <;> simp [h]
  · intro cp hcp
    unfold CoordPair.from_string at hcp
    dsimp only at hcp
    split_ifs at hcp with h
    refine ⟨h, ?_⟩
    cases hcp
    rfl
  · intro c hc
    have hb := pyFind_mem_bounds rowAlphabet c hc
    have hl : (rowAlphabet.length : Int) = 26 := by decide
    exact ⟨hb.1, by omega⟩
  · intro c hc
    have hb := pyFind_mem_bounds colAlphabet c hc
    have hl : (colAlphabet.length : Int) = 16 := by decide
    exact ⟨hb.1, by omega⟩

/-- Witness for the amended C8 at the string `"A3D2"`. -/
theorem claim_c8_amended_witness :
    (CoordPair.from_string "A3D2" = none ↔ (strippedInput "A3D2").length ≠ 4) ∧
    (∀ cp, CoordPair.from_string "A3D2" = some cp →
      (strippedInput "A3D2").length = 4 ∧
      cp = ⟨⟨pyFind rowAlphabet ((strippedInput "A3D2").getD 0 ' ').toUpper,
             pyFind colAlphabet ((strippedInput "A3D2").getD 1 ' ').toLower⟩,
            ⟨pyFind rowAlphabet ((strippedInput "A3D2").getD 2 ' ').toUpper,
             pyFind colAlphabet ((strippedInput "A3D2").getD 3 ' ').toLower⟩⟩) ∧
    (∀ c, pyFind rowAlphabet c = -1 ↔ c ∉ rowAlphabet) ∧
    (∀ c, pyFind colAlphabet c = -1 ↔ c ∉ colAlphabet) ∧
    (∀ c, c ∈ rowAlphabet → 0 ≤ pyFind rowAlphabet c ∧ pyFind rowAlphabet c < 26) ∧
    (∀ c, c ∈ colAlphabet → 0 ≤ pyFind colAlphabet c ∧ pyFind colAlphabet c < 16) :=
  claim_c8_amended "A3D2"

/-! ### Board access infrastructure -/

theorem isValidCoord_iff (g : Game) (c : Coord) :
    g.is_valid_coord c = true ↔
      0 ≤ c.row ∧ c.row < g.options.dim ∧ 0 ≤ c.col ∧ c.col < g.options.dim := by
  unfold Game.is_valid_coord
  split_ifs with h
  · simp only [Bool.false_eq_true, false_iff]
    omega
  · simp only [true_iff]
    omega

@[simp] theorem set_options (g : Game) (c : Coord) (v : Option Unit) :
    (g.set c v).options = g.options := by
  unfold Game.set
  split_ifs <;> rfl

@[simp] theorem set_next_player (g : Game) (c : Coord) (v : Option Unit) :
    (g.set c v).next_player = g.next_player := by
  unfold Game.set
  split_ifs <;> rfl

@[simp] theorem set_turns_played (g : Game) (c : Coord) (v : Option Unit) :
    (g.set c v).turns_played = g.turns_played := by
  unfold Game.set
  split_ifs <;> rfl

@[simp] theorem set_attacker_flag (g : Game) (c : Coord) (v : Option Unit) :
    (g.set c v).attacker_has_ai = g.attacker_has_ai := by
  unfold Game.set
  split_ifs <;> rfl

@[simp] theorem set_defender_flag (g : Game) (c : Coord) (v : Option Unit) :
    (g.set c v).defender_has_ai = g.defender_has_ai := by
  unfold Game.set
  split_ifs <;> rfl

@[simp] theorem set_simulation (g : Game) (c : Coord) (v : Option Unit) :
    (g.set c v).simulation = g.simulation := by
  unfold Game.set
  split_ifs <;> rfl

@[simp] theorem set_isValidCoord (g : Game) (c : Coord) (v : Option Unit) (d : Coord) :
    (g.set c v).is_valid_coord d = g.is_valid_coord d := by
  unfold Game.is_valid_coord
  rw [set_options]

@[simp] theorem get_withAttackerFlag (g : Game) (b : Bool) (d : Coord) :
    ({g with attacker_has_ai := b}).get d = g.get d := rfl

@[simp] theorem get_withDefenderFlag (g : Game) (b : Bool) (d : Coord) :
    ({g with defender_has_ai := b}).get d = g.get d := rfl

@[simp] theorem get_withSimulation (g : Game) (b : Bool) (d : Coord) :
    ({g with simulation := b}).get d = g.get d := rfl

/-- A cell that holds something is a valid coordinate. -/
theorem get_some_valid (g : Game) (c : Coord) (u : Unit) (h : g.get c = some u) :
    g.is_valid_coord c = true := by
  unfold Game.get at h
  by_cases hv : g.is_valid_coord c = true
  · exact hv
  · rw [if_neg hv] at h
    cases h

/-- A `getD` result that differs from the default is a member of the list. -/
theorem getD_mem_of_ne {α : Type} (l : List α) (i : Nat) (d : α) (h : l.getD i d ≠ d) :
    l.getD i d ∈ l := by
  rw [List.getD_eq_getElem?_getD] at *
  cases hx : l[i]? with
  | none => rw [hx] at h; exact absurd rfl h
  | some x =>
    simpa using List.getElem?_mem hx

/-- Reading a grid after writing a different position is unchanged. -/
theorem grid_get_set_ne (B : List (List (Option Unit))) (i j i2 j2 : Nat) (v : Option Unit)
    (h : i ≠ i2 ∨ j ≠ j2) :
    ((B.set i ((B.getD i []).set j v)).getD i2 []).getD j2 none =
      (B.getD i2 []).getD j2 none := by
  by_cases hi : i = i2
  · subst hi
    rcases h with h | h
    · exact absurd rfl h
    · by_cases hlen : i < B.length
      · simp only [List.getD_eq_getElem?_getD]
        rw [List.getElem?_set_self hlen]
        simp only [Option.getD_some]
        rw [List.getElem?_set_ne h]
      · rw [List.set_eq_of_length_le (Nat.le_of_not_lt hlen)]
  · simp only [List.getD_eq_getElem?_getD]
    rw [List.getElem?_set_ne hi]

/-- Reading a grid where one just wrote gives the written value, provided
the position exists. -/
theorem grid_get_set_self (B : List (List (Option Unit))) (i j : Nat) (v : Option Unit)
    (hi : i < B.length) (hj : j < (B.getD i []).length) :
    ((B.set i ((B.getD i []).set j v)).getD i []).getD j none = v := by
  have h1 : (B.set i ((B.getD i []).set j v)).getD i [] = (B.getD i []).set j v := by
    simp only [List.getD_eq_getElem?_getD]
    rw [List.getElem?_set_self hi]
    rfl
  rw [h1]
  have hj2 : j < ((B[i]?).getD []).length := by
    rw [← List.getD_eq_getElem?_getD]
    exact hj
  simp only [List.getD_eq_getElem?_getD]
  rw [List.getElem?_set_self hj2]
  rfl

/-- Writing then reading elsewhere leaves a cell unchanged. -/
theorem get_set_ne (g : Game) (c : Coord) (v : Option Unit) (d : Coord) (hne : d ≠ c) :
    (g.set c v).get d = g.get d := by
  unfold Game.set
  split_ifs with hc
  · unfold Game.get
    have hd2 : ∀ B : List (List (Option Unit)),
        ({g with board := B} : Game).is_valid_coord d = g.is_valid_coord d := fun B => rfl
    rw [hd2]
    by_cases hd : g.is_valid_coord d = true
    · rw [if_pos hd, if_pos hd]
      show ((g.board.set c.row.toNat ((g.board.getD c.row.toNat []).set c.col.toNat v)).getD
        d.row.toNat []).getD d.col.toNat none = (g.board.getD d.row.toNat []).getD d.col.toNat none
      rw [isValidCoord_iff] at hc hd
      refine grid_get_set_ne g.board _ _ _ _ v ?_
      by_cases hrow : d.row = c.row
      · refine Or.inr ?_
        have hcol : d.col ≠ c.col := by
          intro hcc
          exact hne (by cases d; cases c; simp_all)
        omega
      · refine Or.inl ?_
        omega
    · rw [if_neg hd, if_neg hd]
  · rfl

/-- Writing then reading the same valid cell gives the written value. -/
theorem get_set_self (g : Game) (c : Coord) (v : Option Unit) (hwf : boardWF g)
    (hv : g.is_valid_coord c = true) : (g.set c v).get c = v := by
  unfold Game.set
  rw [if_pos hv]
  unfold Game.get
  have h2 : ∀ B : List (List (Option Unit)),
      ({g with board := B} : Game).is_valid_coord c = g.is_valid_coord c := fun B => rfl
  rw [h2, if_pos hv]
  obtain ⟨hlen, hrows⟩ := hwf
  rw [isValidCoord_iff] at hv
  have hi : c.row.toNat < g.board.length := by omega
  apply grid_get_set_self
  · exact hi
  · have hmem : g.board.getD c.row.toNat [] ∈ g.board := by
      rw [List.getD_eq_getElem g.board [] hi]
      exact List.getElem_mem hi
    have := hrows _ hmem
    omega

/-- The `Game.set` preserves the board shape. -/
theorem boardWF_set (g : Game) (c : Coord) (v : Option Unit) (hwf : boardWF g) :
    boardWF (g.set c v) := by
  unfold Game.set
  split_ifs with hc
  · by_cases hi : c.row.toNat < g.board.length
    · obtain ⟨hlen, hrows⟩ := hwf
      constructor
      · show (g.board.set c.row.toNat _).length = g.options.dim.toNat
        rw [List.length_set]
        exact hlen
      · intro row hrow
        show row.length = g.options.dim.toNat
        rcases List.mem_or_eq_of_mem_set hrow with h | h
        · exact hrows row h
        · subst h
          rw [List.length_set]
          have hmem : g.board.getD c.row.toNat [] ∈ g.board := by
            rw [List.getD_eq_getElem g.board [] hi]
            exact List.getElem_mem hi
          exact hrows _ hmem
    · rw [List.set_eq_of_length_le (Nat.le_of_not_lt hi)]
      exact hwf
  · exact hwf

/-- A `cellOK` clamp characterisation. -/
theorem cellOK_some_iff (u : Unit) : cellOK (some u) = true ↔ 0 ≤ u.health ∧ u.health ≤ 9 := by
  simp [cellOK]

/-- A freshly clamped unit always satisfies `cellOK`. -/
theorem cellOK_modHealth (u : Unit) (d : Int) : cellOK (some (u.mod_health d)) = true := by
  rw [cellOK_some_iff]
  exact mod_health_mem u d

/-- The `Game.set` preserves clamped healths when the written cell is clamped. -/
theorem healthsWF_set (g : Game) (c : Coord) (v : Option Unit) (hh : healthsWF g)
    (hv : cellOK v = true) : healthsWF (g.set c v) := by
  unfold Game.set
  split_ifs with hc
  · by_cases hi : c.row.toNat < g.board.length
    · intro row hrow cell hcell
      rcases List.mem_or_eq_of_mem_set hrow with h | h
      · exact hh row h cell hcell
      · subst h
        rcases List.mem_or_eq_of_mem_set hcell with h2 | h2
        · have hmem : g.board.getD c.row.toNat [] ∈ g.board := by
            rw [List.getD_eq_getElem g.board [] hi]
            exact List.getElem_mem hi
          exact hh _ hmem cell h2
        · subst h2
          exact hv
    · rw [List.set_eq_of_length_le (Nat.le_of_not_lt hi)]
      exact hh
  · exact hh

/-- Every occupied cell readable through `Game.get` is clamped. -/
theorem healthsWF_get (g : Game) (c : Coord) (u : Unit) (hh : healthsWF g)
    (hu : g.get c = some u) : 0 ≤ u.health ∧ u.health ≤ 9 := by
  unfold Game.get at hu
  split_ifs at hu with hv
  have hne : (g.board.getD c.row.toNat []).getD c.col.toNat none ≠ none := by
    rw [hu]
    exact Option.some_ne_none u
  have hcellmem := getD_mem_of_ne _ _ _ hne
  have hrowne : g.board.getD c.row.toNat [] ≠ [] := by
    intro he
    rw [he] at hcellmem
    cases hcellmem
  have hrowmem := getD_mem_of_ne g.board c.row.toNat [] hrowne
  have := hh _ hrowmem _ hcellmem
  rw [hu] at this
  rw [cellOK_some_iff] at this
  exact this

@[simp] theorem removeDead_options (g : Game) (c : Coord) :
    (g.remove_dead c).options = g.options := by
  unfold Game.remove_dead
  cases g.get c with
  | none => rfl
  | some u =>
    dsimp only
    split_ifs <;> simp [set_options]

@[simp] theorem removeDead_next_player (g : Game) (c : Coord) :
    (g.remove_dead c).next_player = g.next_player := by
  unfold Game.remove_dead
  cases g.get c with
  | none => rfl
  | some u =>
    dsimp only
    split_ifs <;> simp [set_next_player]

@[simp] theorem removeDead_turns_played (g : Game) (c : Coord) :
    (g.remove_dead c).turns_played = g.turns_played := by
  unfold Game.remove_dead
  cases g.get c with
  | none => rfl
  | some u =>
    dsimp only
    split_ifs <;> simp [set_turns_played]

@[simp] theorem removeDead_simulation (g : Game) (c : Coord) :
    (g.remove_dead c).simulation = g.simulation := by
  unfold Game.remove_dead
  cases g.get c with
  | none => rfl
  | some u =>
    dsimp only
    split_ifs <;> simp [set_simulation]

/-- Removing a dead unit does not touch other cells. -/
theorem get_removeDead_ne (g : Game) (c d : Coord) (hne : d ≠ c) :
    (g.remove_dead c).get d = g.get d := by
  unfold Game.remove_dead
  cases g.get c with
  | none => rfl
  | some u =>
    dsimp only
    split_ifs with h1 h2 h3
    · rfl
    · rw [get_withAttackerFlag]
      exact get_set_ne g c none d hne
    · rw [get_withDefenderFlag]
      exact get_set_ne g c none d hne
    · exact get_set_ne g c none d hne

/-- Removing a dead unit empties exactly the dead cell. -/
theorem get_removeDead_self (g : Game) (c : Coord) (hwf : boardWF g) :
    (g.remove_dead c).get c =
      match g.get c with
      | none => none
      | some u => if u.is_alive then some u else none := by
  unfold Game.remove_dead
  cases hu : g.get c with
  | none => exact hu
  | some u =>
    have hv := get_some_valid g c u hu
    dsimp only
    split_ifs with h1 h2 h3
    · exact hu
    · rw [get_withAttackerFlag]
      exact get_set_self g c none hwf hv
    · rw [get_withDefenderFlag]
      exact get_set_self g c none hwf hv
    · exact get_set_self g c none hwf hv

/-- The `remove_dead` preserves the board shape. -/
theorem boardWF_removeDead (g : Game) (c : Coord) (hwf : boardWF g) :
    boardWF (g.remove_dead c) := by
  unfold Game.remove_dead
  cases g.get c with
  | none => exact hwf
  | some u =>
    have hset := boardWF_set g c none hwf
    dsimp only
    split_ifs <;> first | exact hwf | exact hset

/-- The `remove_dead` preserves clamped healths. -/
theorem healthsWF_removeDead (g : Game) (c : Coord) (hh : healthsWF g) :
    healthsWF (g.remove_dead c) := by
  unfold Game.remove_dead
  cases g.get c with
  | none => exact hh
  | some u =>
    have hset := healthsWF_set g c none hh rfl
    dsimp only
    split_ifs <;> first | exact hh | exact hset

/-- How `remove_dead` updates the Attacker AI flag. -/
theorem removeDead_attacker_flag (g : Game) (c : Coord) :
    (g.remove_dead c).attacker_has_ai =
      (match g.get c with
       | none => g.attacker_has_ai
       | some u =>
         if u.is_alive then g.attacker_has_ai
         else if u.type = UnitType.AI ∧ u.player = Player.Attacker then false
         else g.attacker_has_ai) := by
  unfold Game.remove_dead
  cases g.get c with
  | none => rfl
  | some u =>
    dsimp only
    split_ifs with h1 h2 h3 h4 h5 <;>
      simp_all [set_attacker_flag]

/-- How `remove_dead` updates the Defender AI flag. -/
theorem removeDead_defender_flag (g : Game) (c : Coord) :
    (g.remove_dead c).defender_has_ai =
      (match g.get c with
       | none => g.defender_has_ai
       | some u =>
         if u.is_alive then g.defender_has_ai
         else if u.type = UnitType.AI ∧ u.player = Player.Defender then false
         else g.defender_has_ai) := by
  unfold Game.remove_dead
  cases g.get c with
  | none => rfl
  | some u =>
    have hp : u.player = Player.Attacker ∨ u.player = Player.Defender := by
      cases u.player
      · exact Or.inl rfl
      · exact Or.inr rfl
    dsimp only
    split_ifs with h1 h2 h3 h4 h5 <;> rcases hp with hp | hp <;>
      simp_all [set_defender_flag]

@[simp] theorem modHealth_options (g : Game) (c : Coord) (delta : Int) :
    (g.mod_health c delta).options = g.options := by
  unfold Game.mod_health
  cases g.get c with
  | none => rfl
  | some u => rw [removeDead_options, set_options]

@[simp] theorem modHealth_next_player (g : Game) (c : Coord) (delta : Int) :
    (g.mod_health c delta).next_player = g.next_player := by
  unfold Game.mod_health
  cases g.get c with
  | none => rfl
  | some u => rw [removeDead_next_player, set_next_player]

@[simp] theorem modHealth_turns_played (g : Game) (c : Coord) (delta : Int) :
    (g.mod_health c delta).turns_played = g.turns_played := by
  unfold Game.mod_health
  cases g.get c with
  | none => rfl
  | some u => rw [removeDead_turns_played, set_turns_played]

@[simp] theorem modHealth_simulation (g : Game) (c : Coord) (delta : Int) :
    (g.mod_health c delta).simulation = g.simulation := by
  unfold Game.mod_health
  cases g.get c with
  | none => rfl
  | some u => rw [removeDead_simulation, set_simulation]

/-- The `mod_health` does not touch other cells. -/
theorem get_modHealth_ne (g : Game) (c : Coord) (delta : Int) (d : Coord) (hne : d ≠ c) :
    (g.mod_health c delta).get d = g.get d := by
  unfold Game.mod_health
  cases g.get c with
  | none => rfl
  | some u =>
    rw [get_removeDead_ne _ _ _ hne, get_set_ne _ _ _ _ hne]

/-- What `mod_health` leaves in its own cell: the clamped unit, removed when
dead. -/
theorem get_modHealth_self (g : Game) (c : Coord) (delta : Int) (hwf : boardWF g) :
    (g.mod_health c delta).get c =
      match g.get c with
      | none => none
      | some u =>
        if (u.mod_health delta).is_alive then some (u.mod_health delta) else none := by
  unfold Game.mod_health
  cases hu : g.get c with
  | none => exact hu
  | some u =>
    have hv := get_some_valid g c u hu
    have hwf2 := boardWF_set g c (some (u.mod_health delta)) hwf
    rw [get_removeDead_self _ _ hwf2, get_set_self g c _ hwf hv]

/-- The `mod_health` preserves the board shape. -/
theorem boardWF_modHealth (g : Game) (c : Coord) (delta : Int) (hwf : boardWF g) :
    boardWF (g.mod_health c delta) := by
  unfold Game.mod_health
  cases g.get c with
  | none => exact hwf
  | some u => exact boardWF_removeDead _ _ (boardWF_set g c _ hwf)

/-- The `mod_health` preserves clamped healths. -/
theorem healthsWF_modHealth (g : Game) (c : Coord) (delta : Int) (hh : healthsWF g) :
    healthsWF (g.mod_health c delta) := by
  unfold Game.mod_health
  cases g.get c with
  | none => exact hh
  | some u => exact healthsWF_removeDead _ _ (healthsWF_set g c _ hh (cellOK_modHealth u delta))

@[simp] theorem mod_health_type (u : Unit) (d : Int) : (u.mod_health d).type = u.type := by
  unfold Unit.mod_health
  dsimp only
  split_ifs <;> rfl

@[simp] theorem mod_health_player (u : Unit) (d : Int) : (u.mod_health d).player = u.player := by
  unfold Unit.mod_health
  dsimp only
  split_ifs <;> rfl

/-- How `mod_health` updates the Attacker AI flag when the target exists. -/
theorem modHealth_attacker_flag (g : Game) (c : Coord) (delta : Int) (u : Unit)
    (hwf : boardWF g) (hu : g.get c = some u) :
    (g.mod_health c delta).attacker_has_ai =
      (if (u.mod_health delta).is_alive then g.attacker_has_ai
       else if u.type = UnitType.AI ∧ u.player = Player.Attacker then false
       else g.attacker_has_ai) := by
  unfold Game.mod_health
  rw [hu]
  dsimp only
  rw [removeDead_attacker_flag]
  have hv := get_some_valid g c u hu
  rw [get_set_self g c _ hwf hv]
  dsimp only
  simp only [set_attacker_flag, mod_health_type, mod_health_player]

/-- How `mod_health` updates the Defender AI flag when the target exists. -/
theorem modHealth_defender_flag (g : Game) (c : Coord) (delta : Int) (u : Unit)
    (hwf : boardWF g) (hu : g.get c = some u) :
    (g.mod_health c delta).defender_has_ai =
      (if (u.mod_health delta).is_alive then g.defender_has_ai
       else if u.type = UnitType.AI ∧ u.player = Player.Defender then false
       else g.defender_has_ai) := by
  unfold Game.mod_health
  rw [hu]
  dsimp only
  rw [removeDead_defender_flag]
  have hv := get_some_valid g c u hu
  rw [get_set_self g c _ hwf hv]
  dsimp only
  simp only [set_defender_flag, mod_health_type, mod_health_player]

/-- A unit pushed to nonpositive health by a delta is dead. -/
theorem mod_health_kills (u : Unit) (delta : Int) (h : u.health + delta ≤ 0) :
    (u.mod_health delta).is_alive = false := by
  unfold Unit.is_alive
  rw [mod_health_health]
  split_ifs with h1 h2
  · rfl
  · omega
  · simp
    omega

/-- C5 amended: the turn limit dominates; below it, `has_winner` answers
Attacker exactly when the Attacker still has its AI and the Defender does
not, Defender exactly when the Attacker's AI is gone (even if the
Defender's is gone too), and no winner exactly when both AIs are present.
Killing an AI through `mod_health` flips the corresponding flag, so killing
the Attacker's AI yields Defender, and killing the Defender's AI yields
Attacker provided the Attacker still has its AI and the limit is not
reached. -/
theorem claim_c5_amended (g : Game) :
    (∀ mt, g.options.max_turns = some mt → mt ≤ g.turns_played →
      g.has_winner = some Player.Defender) ∧
    ((∀ mt, g.options.max_turns = some mt → g.turns_played < mt) →
      (g.has_winner = some Player.Attacker ↔
        g.attacker_has_ai = true ∧ g.defender_has_ai = false) ∧
      (g.has_winner = some Player.Defender ↔ g.attacker_has_ai = false) ∧
      (g.has_winner = none ↔ g.attacker_has_ai = true ∧ g.defender_has_ai = true)) ∧
    (∀ c u delta, boardWF g → g.get c = some u → u.type = UnitType.AI →
      u.health + delta ≤ 0 →
      (u.player = Player.Attacker →
        (g.mod_health c delta).has_winner = some Player.Defender) ∧
      (u.player = Player.Defender → g.attacker_has_ai = true →
        (∀ mt, g.options.max_turns = some mt → g.turns_played < mt) →
        (g.mod_health c delta).has_winner = some Player.Attacker)) := by
  refine ⟨?_, ?_, ?_⟩
  · intro mt hmt hle
    unfold Game.has_winner
    rw [hmt]
    dsimp only
    rw [if_pos (decide_eq_true (show g.turns_played ≥ mt from hle))]
  · intro hnl
    unfold Game.has_winner
    have hcond : (match g.options.max_turns with
        | some mt => decide (g.turns_played ≥ mt)
        | none => false) = false := by
      cases hmt : g.options.max_turns with
      | none => rfl
      | some mt =>
        have := hnl mt hmt
        simp only [decide_eq_false_iff_not]
        omega
    rw [if_neg (by simp [hcond])]
    cases ha : g.attacker_has_ai <;> cases hd : g.defender_has_ai <;> simp
  · intro c u delta hwf hu hAI hdead
    have halive := mod_health_kills u delta hdead
    have hflagA := modHealth_attacker_flag g c delta u hwf hu
    have hflagD := modHealth_defender_flag g c delta u hwf hu
    rw [halive] at hflagA hflagD
    simp only [Bool.false_eq_true, if_false] at hflagA hflagD
    constructor
    · intro hp
      have hA : (g.mod_health c delta).attacker_has_ai = false := by
        rw [hflagA, if_pos ⟨hAI, hp⟩]
      unfold Game.has_winner
      rw [modHealth_options, modHealth_turns_played, hA]
      split_ifs with h1 h2 h3 <;> first | rfl | exact h2.elim
    · intro hp hatt hnl
      have hA : (g.mod_health c delta).attacker_has_ai = true := by
        rw [hflagA, if_neg, hatt]
        rintro ⟨h1, h2⟩
        rw [hp] at h2
        cases h2
      have hD : (g.mod_health c delta).defender_has_ai = false := by
        rw [hflagD, if_pos ⟨hAI, hp⟩]
      unfold Game.has_winner
      rw [modHealth_options, modHealth_turns_played, hA, hD]
      have hcond : (match g.options.max_turns with
          | some mt => decide (g.turns_played ≥ mt)
          | none => false) = false := by
        cases hmt : g.options.max_turns with
        | none => rfl
        | some mt =>
          have := hnl mt hmt
          simp only [decide_eq_false_iff_not]
          omega
      rw [if_neg (by simp [hcond])]
      simp

/-- Witness for the amended C5: killing the lone Attacker AI at (2,2) with a
-9 delta makes the Defender win. -/
theorem claim_c5_amended_witness :
    boardWF exampleAIGame ∧
    exampleAIGame.get ⟨2, 2⟩ = some ⟨Player.Attacker, UnitType.AI, 9⟩ ∧
    (⟨Player.Attacker, UnitType.AI, 9⟩ : Unit).type = UnitType.AI ∧
    (⟨Player.Attacker, UnitType.AI, 9⟩ : Unit).health + (-9) ≤ 0 ∧
    (exampleAIGame.mod_health ⟨2, 2⟩ (-9)).has_winner = some Player.Defender :=
  ⟨by decide, by decide, rfl, by decide,
   ((claim_c5_amended exampleAIGame).2.2 ⟨2, 2⟩ ⟨Player.Attacker, UnitType.AI, 9⟩ (-9)
      (by decide) (by decide) rfl (by decide)).1 rfl⟩

/-- A unit of the active player targeting its own cell always classifies as
self-destruct: it is not an attack (same player), never a repair (no
repair-eligible pair has equal types), and the two cell reads are equal. -/
theorem is_valid_move_self (g : Game) (c : Coord) (u : Unit) (hu : g.get c = some u)
    (hp : u.player = g.next_player) :
    g.is_valid_move ⟨c, c⟩ = (true, "self-destruct") := by
  unfold Game.is_valid_move
  have hv := get_some_valid g c u hu
  dsimp only
  rw [if_neg (by simp [hv]), hu]
  dsimp only
  rw [if_neg (fun h => h hp)]
  rw [if_neg (fun h => h rfl)]
  rw [if_neg (by
    rintro ⟨h9, (⟨ha, hb⟩ | ⟨ha, hb⟩ | ⟨ha, hb⟩ | ⟨ha, hb⟩ | ⟨ha, hb⟩)⟩ <;>
      (rw [ha] at hb; exact absurd hb (by decide)))]
  rw [if_pos rfl]

/-- Every unit listed by `player_units` is really on the board and owned by
that player. -/
theorem player_units_mem (g : Game) (p : Player) (cu : Coord × Unit)
    (h : cu ∈ g.player_units p) : g.get cu.1 = some cu.2 ∧ cu.2.player = p := by
  unfold Game.player_units at h
  rw [List.mem_filterMap] at h
  obtain ⟨coord, hmem, heq⟩ := h
  cases hg : g.get coord with
  | none => rw [hg] at heq; cases heq
  | some u =>
    rw [hg] at heq
    dsimp only at heq
    by_cases hp2 : u.player = p
    · rw [if_pos hp2] at heq
      cases heq
      exact ⟨hg, hp2⟩
    · rw [if_neg hp2] at heq
      cases heq

/-- The self-targeting move of every listed unit of the active player is
classified as self-destruct. -/
theorem self_move_valid (g : Game) (su : Coord × Unit)
    (h : su ∈ g.player_units g.next_player) :
    g.is_valid_move ⟨su.1, su.1⟩ = (true, "self-destruct") := by
  have hm := player_units_mem g g.next_player su h
  exact is_valid_move_self g su.1 su.2 hm.1 hm.2

/-- The `flatMap` only depends on the function's values on members. -/
theorem flatMap_congr_mem {α β : Type} (l : List α) (f1 f2 : α → List β)
    (h : ∀ a ∈ l, f1 a = f2 a) : l.flatMap f1 = l.flatMap f2 := by
  induction l with
  | nil => rfl
  | cons a l ih =>
    simp only [List.flatMap_cons]
    rw [h a (List.mem_cons_self a l), ih fun x hx => h x (List.mem_cons_of_mem a hx)]

/-- C7: the source's candidate generator coincides with the spec's
description (all five destinations tested, in the order up, left, down,
right, self, over units in board scan order), and every yielded move is
accepted by the classifier. -/
theorem claim_c7_candidates (g : Game) :
    g.move_candidates = candidatesSpec g ∧
    ∀ m ∈ g.move_candidates, (g.is_valid_move m).1 = true := by
  constructor
  · unfold Game.move_candidates candidatesSpec
    apply flatMap_congr_mem
    intro su hsu
    have h5 : ([⟨su.1.row - 1, su.1.col⟩, ⟨su.1.row, su.1.col - 1⟩,
        ⟨su.1.row + 1, su.1.col⟩, ⟨su.1.row, su.1.col + 1⟩, su.1] : List Coord) =
        su.1.iter_adjacent ++ [su.1] := rfl
    rw [h5, List.filterMap_append]
    congr 1
    show _ = List.filterMap _ [su.1]
    rw [List.filterMap_cons, List.filterMap_nil]
    rw [if_pos (by rw [self_move_valid g su hsu])]
  · intro m hm
    unfold Game.move_candidates at hm
    rw [List.mem_flatMap] at hm
    obtain ⟨su, hsu, hm2⟩ := hm
    rw [List.mem_append] at hm2
    rcases hm2 with hm2 | hm2
    · rw [List.mem_filterMap] at hm2
      obtain ⟨dst, hdst, heq⟩ := hm2
      by_cases hvm : (g.is_valid_move ⟨su.1, dst⟩).1 = true
      · rw [if_pos hvm] at heq
        cases heq
        exact hvm
      · rw [if_neg hvm] at heq
        cases heq
    · rw [List.mem_singleton] at hm2
      subst hm2
      rw [self_move_valid g su hsu]

/-- Witness for C7 at the lone-Virus board and its self-move. -/
theorem claim_c7_candidates_witness :
    exampleVirusGame.move_candidates = candidatesSpec exampleVirusGame ∧
    (⟨⟨2, 2⟩, ⟨2, 2⟩⟩ : CoordPair) ∈ exampleVirusGame.move_candidates ∧
    (exampleVirusGame.is_valid_move ⟨⟨2, 2⟩, ⟨2, 2⟩⟩).1 = true :=
  ⟨(claim_c7_candidates exampleVirusGame).1, by decide,
   (claim_c7_candidates exampleVirusGame).2 ⟨⟨2, 2⟩, ⟨2, 2⟩⟩ (by decide)⟩

/-- C10: every on-board unit of the active player contributes its
self-targeting move, which the classifier accepts as self-destruct; hence
the candidate list is empty only when the active player has no units. -/
theorem claim_c10_nonempty (g : Game) :
    (∀ su ∈ g.player_units g.next_player,
      g.is_valid_move ⟨su.1, su.1⟩ = (true, "self-destruct") ∧
      (⟨su.1, su.1⟩ : CoordPair) ∈ g.move_candidates) ∧
    (g.player_units g.next_player ≠ [] → g.move_candidates ≠ []) := by
  have hmem : ∀ su ∈ g.player_units g.next_player,
      (⟨su.1, su.1⟩ : CoordPair) ∈ g.move_candidates := by
    intro su hsu
    unfold Game.move_candidates
    rw [List.mem_flatMap]
    exact ⟨su, hsu, List.mem_append_right _ (List.mem_singleton.mpr rfl)⟩
  constructor
  · intro su hsu
    exact ⟨self_move_valid g su hsu, hmem su hsu⟩
  · intro hne hcand
    cases hpu : g.player_units g.next_player with
    | nil => exact hne hpu
    | cons su rest =>
      have hin : (⟨su.1, su.1⟩ : CoordPair) ∈ g.move_candidates :=
        hmem su (by rw [hpu]; exact List.mem_cons_self su rest)
      rw [hcand] at hin
      cases hin

/-- Witness for C10 at the lone-Virus board. -/
theorem claim_c10_nonempty_witness :
    (⟨2, 2⟩, (⟨Player.Attacker, UnitType.Virus, 9⟩ : Unit)) ∈
      exampleVirusGame.player_units exampleVirusGame.next_player ∧
    exampleVirusGame.is_valid_move ⟨⟨2, 2⟩, ⟨2, 2⟩⟩ = (true, "self-destruct") ∧
    (⟨⟨2, 2⟩, ⟨2, 2⟩⟩ : CoordPair) ∈ exampleVirusGame.move_candidates ∧
    (exampleVirusGame.player_units exampleVirusGame.next_player ≠ [] →
      exampleVirusGame.move_candidates ≠ []) :=
  ⟨by decide,
   ((claim_c10_nonempty exampleVirusGame).1
      (⟨2, 2⟩, (⟨Player.Attacker, UnitType.Virus, 9⟩ : Unit)) (by decide)).1,
   ((claim_c10_nonempty exampleVirusGame).1
      (⟨2, 2⟩, (⟨Player.Attacker, UnitType.Virus, 9⟩ : Unit)) (by decide)).2,
   (claim_c10_nonempty exampleVirusGame).2⟩

/-- Membership in a Python-style integer range. -/
theorem mem_intRange (lo hi x : Int) : x ∈ intRange lo hi ↔ lo ≤ x ∧ x < hi := by
  unfold intRange
  rw [List.mem_map]
  constructor
  · rintro ⟨i, hi2, rfl⟩
    rw [List.mem_range] at hi2
    omega
  · rintro ⟨h1, h2⟩
    refine ⟨(x - lo).toNat, ?_, by omega⟩
    rw [List.mem_range]
    omega

theorem intRange_nodup (lo hi : Int) : (intRange lo hi).Nodup := by
  unfold intRange
  refine List.Nodup.map ?_ (List.nodup_range _)
  intro a b h
  dsimp only at h
  omega

/-- The square of radius `dist` has no repeated cells. -/
theorem iter_range_nodup (c : Coord) (dist : Int) : (c.iter_range dist).Nodup := by
  unfold Coord.iter_range
  rw [List.nodup_flatMap]
  constructor
  · intro r hr
    apply List.Nodup.map
    · intro a b h
      simpa using congrArg Coord.col h
    · exact intRange_nodup _ _
  · refine List.Pairwise.imp ?_ (intRange_nodup _ _)
    intro a b hab x hx1 hx2
    rw [List.mem_map] at hx1 hx2
    obtain ⟨c1, _, h1⟩ := hx1
    obtain ⟨c2, _, h2⟩ := hx2
    apply hab
    have := congrArg Coord.row (h1.trans h2.symm)
    simpa using this

/-- Membership in the 3×3 square centered at `c`. -/
theorem mem_iter_range_one (c d : Coord) :
    d ∈ c.iter_range 1 ↔ |d.row - c.row| ≤ 1 ∧ |d.col - c.col| ≤ 1 := by
  unfold Coord.iter_range
  simp only [List.mem_flatMap, List.mem_map, mem_intRange]
  constructor
  · rintro ⟨r, ⟨hr1, hr2⟩, col, ⟨hc1, hc2⟩, rfl⟩
    rw [abs_le, abs_le]
    dsimp only
    omega
  · rintro ⟨h1, h2⟩
    rw [abs_le] at h1 h2
    exact ⟨d.row, ⟨by omega, by omega⟩, d.col, ⟨by omega, by omega⟩, by cases d; rfl⟩

/-- The center belongs to its own 3×3 square. -/
theorem center_mem_iter_range_one (c : Coord) : c ∈ c.iter_range 1 := by
  rw [mem_iter_range_one]
  constructor <;> simp

/-- One step of the blast loop, seen cell by cell: the stepped cell becomes
`blastCell` of its content, others are untouched. -/
theorem blast_step_get (g : Game) (x : Coord) (hwf : boardWF g) :
    boardWF ((if (g.get x).isSome then g.mod_health x (-2) else g).remove_dead x) ∧
    (((if (g.get x).isSome then g.mod_health x (-2) else g).remove_dead x).get x =
      blastCell (g.get x)) ∧
    ∀ d, d ≠ x →
      (((if (g.get x).isSome then g.mod_health x (-2) else g).remove_dead x).get d = g.get d) := by
  refine ⟨?_, ?_, ?_⟩
  · split_ifs with h
    · exact boardWF_removeDead _ _ (boardWF_modHealth _ _ _ hwf)
    · exact boardWF_removeDead _ _ hwf
  · cases hx : g.get x with
    | none =>
      rw [if_neg (by simp)]
      rw [get_removeDead_self _ _ hwf, hx]
      rfl
    | some v =>
      rw [if_pos (show (some v).isSome = true from rfl)]
      have hwf2 := boardWF_modHealth g x (-2) hwf
      rw [get_removeDead_self _ _ hwf2, get_modHealth_self _ _ _ hwf, hx]
      dsimp only
      unfold blastCell
      dsimp only
      split_ifs with h1
      · dsimp only
        rw [if_pos h1]
      · rfl
  · intro d hd
    split_ifs with h
    · rw [get_removeDead_ne _ _ _ hd, get_modHealth_ne _ _ _ _ hd]
    · rw [get_removeDead_ne _ _ _ hd]

/-- The blast loop, cell by cell: processed cells take `blastCell`, other
cells are untouched. -/
theorem blast_fold_get (L : List Coord) :
    ∀ g : Game, L.Nodup → boardWF g →
    ∀ d, (L.foldl (fun acc c2 =>
        (if (acc.get c2).isSome then acc.mod_health c2 (-2) else acc).remove_dead c2) g).get d =
      if d ∈ L then blastCell (g.get d) else g.get d := by
  induction L with
  | nil =>
    intro g hnd hwf d
    simp
  | cons x L ih =>
    intro g hnd hwf d
    rw [List.foldl_cons]
    obtain ⟨hwf2, hself, hne⟩ := blast_step_get g x hwf
    have hnc := List.nodup_cons.mp hnd
    rw [ih _ hnc.2 hwf2 d]
    by_cases hdL : d ∈ L
    · have hdx : d ≠ x := fun he => hnc.1 (he ▸ hdL)
      rw [if_pos hdL, hne d hdx, if_pos (List.mem_cons_of_mem x hdL)]
    · rw [if_neg hdL]
      by_cases hdx : d = x
      · subst hdx
        rw [hself, if_pos (List.mem_cons_self d L)]
      · rw [hne d hdx, if_neg (by
          rw [List.mem_cons]
          rintro (h | h)
          · exact hdx h
          · exact hdL h)]

/-- C6: a valid self-destruct empties the acting cell and applies the
2-damage-then-remove step to every other cell of the 3×3 neighborhood,
leaving the rest of the board untouched. -/
theorem claim_c6_selfdestruct (g : Game) (c : Coord) (u : Unit) (hwf : boardWF g)
    (hu : g.get c = some u) (hp : u.player = g.next_player) (hh : u.health ≤ 9) :
    (g.perform_move ⟨c, c⟩).2 = (true, "") ∧
    ∀ d : Coord, (g.perform_move ⟨c, c⟩).1.get d =
      (if d = c then none
       else if |d.row - c.row| ≤ 1 ∧ |d.col - c.col| ≤ 1 then blastCell (g.get d)
       else g.get d) := by
  have hvm := is_valid_move_self g c u hu hp
  have hpm : g.perform_move ⟨c, c⟩ =
      ((c.iter_range 1).foldl
        (fun acc c2 =>
          (if (acc.get c2).isSome then acc.mod_health c2 (-2) else acc).remove_dead c2)
        (g.mod_health c (-9)), (true, "")) := by
    unfold Game.perform_move
    dsimp only
    rw [hvm]
    rw [if_neg (by decide), if_neg (by decide), if_neg (by decide), if_pos (by decide)]
  rw [hpm]
  refine ⟨rfl, ?_⟩
  intro d
  have hwf1 : boardWF (g.mod_health c (-9)) := boardWF_modHealth _ _ _ hwf
  rw [blast_fold_get (c.iter_range 1) _ (iter_range_nodup c 1) hwf1 d]
  have hkill : (u.mod_health (-9)).is_alive = false := mod_health_kills u (-9) (by omega)
  have hselfnone : (g.mod_health c (-9)).get c = none := by
    rw [get_modHealth_self _ _ _ hwf, hu]
    dsimp only
    simp [hkill]
  by_cases hdc : d = c
  · subst hdc
    rw [if_pos (center_mem_iter_range_one d), hselfnone,
      if_pos (show d = d from rfl)]
    rfl
  · have hg1d : (g.mod_health c (-9)).get d = g.get d := get_modHealth_ne _ _ _ _ hdc
    rw [hg1d]
    by_cases hin : |d.row - c.row| ≤ 1 ∧ |d.col - c.col| ≤ 1
    · rw [if_pos ((mem_iter_range_one c d).mpr hin), if_neg hdc, if_pos hin]
    · rw [if_neg (fun hmem => hin ((mem_iter_range_one c d).mp hmem)), if_neg hdc, if_neg hin]

/-- Witness for C6 at the spec's blast scenario: a unit at (2,2) with 8
neighbors of health 5. -/
theorem claim_c6_selfdestruct_witness :
    boardWF exampleBlastGame ∧
    exampleBlastGame.get ⟨2, 2⟩ = some ⟨Player.Attacker, UnitType.Program, 9⟩ ∧
    (⟨Player.Attacker, UnitType.Program, 9⟩ : Unit).player = exampleBlastGame.next_player ∧
    (⟨Player.Attacker, UnitType.Program, 9⟩ : Unit).health ≤ 9 ∧
    ((exampleBlastGame.perform_move ⟨⟨2, 2⟩, ⟨2, 2⟩⟩).2 = (true, "") ∧
     ∀ d : Coord, (exampleBlastGame.perform_move ⟨⟨2, 2⟩, ⟨2, 2⟩⟩).1.get d =
       (if d = (⟨2, 2⟩ : Coord) then none
        else if |d.row - (2 : Int)| ≤ 1 ∧ |d.col - (2 : Int)| ≤ 1 then
          blastCell (exampleBlastGame.get d)
        else exampleBlastGame.get d)) :=
  ⟨by decide, by decide, rfl, by decide,
   claim_c6_selfdestruct exampleBlastGame ⟨2, 2⟩ ⟨Player.Attacker, UnitType.Program, 9⟩
     (by decide) (by decide) rfl (by decide)⟩

/-! ### The state invariant survives every move -/

/-- Everything readable through `Game.get` is a clamped cell. -/
theorem cellOK_get (g : Game) (c : Coord) (hh : healthsWF g) : cellOK (g.get c) = true := by
  cases hu : g.get c with
  | none => rfl
  | some u =>
    rw [cellOK_some_iff]
    exact healthsWF_get g c u hh hu

theorem invGame_set (g : Game) (c : Coord) (v : Option Unit) (hinv : invGame g)
    (hv : cellOK v = true) : invGame (g.set c v) := by
  obtain ⟨hwf, hh, hdim⟩ := hinv
  exact ⟨boardWF_set g c v hwf, healthsWF_set g c v hh hv, by rw [set_options]; exact hdim⟩

theorem invGame_removeDead (g : Game) (c : Coord) (hinv : invGame g) :
    invGame (g.remove_dead c) := by
  obtain ⟨hwf, hh, hdim⟩ := hinv
  exact ⟨boardWF_removeDead g c hwf, healthsWF_removeDead g c hh,
    by rw [removeDead_options]; exact hdim⟩

theorem invGame_modHealth (g : Game) (c : Coord) (delta : Int) (hinv : invGame g) :
    invGame (g.mod_health c delta) := by
  obtain ⟨hwf, hh, hdim⟩ := hinv
  exact ⟨boardWF_modHealth g c delta hwf, healthsWF_modHealth g c delta hh,
    by rw [modHealth_options]; exact hdim⟩

/-- The self-destruct blast loop preserves the invariant. -/
theorem invGame_blastFold (L : List Coord) :
    ∀ g : Game, invGame g →
    invGame (L.foldl (fun acc c2 =>
      (if (acc.get c2).isSome then acc.mod_health c2 (-2) else acc).remove_dead c2) g) := by
  induction L with
  | nil => intro g hinv; exact hinv
  | cons x L ih =>
    intro g hinv
    rw [List.foldl_cons]
    apply ih
    apply invGame_removeDead
    split_ifs with h
    · exact invGame_modHealth g x (-2) hinv
    · exact hinv

/-- The `Game.perform_move` preserves the invariant: relocation moves a clamped
unit, combat and repair write clamp-adjusted units, self-destruct composes
clamp steps, and options are never touched. -/
theorem invGame_performMove (g : Game) (m : CoordPair) (hinv : invGame g) :
    invGame (g.perform_move m).1 := by
  unfold Game.perform_move
  dsimp only
  split_ifs with h1 h2 h3 h4
  · exact invGame_set _ _ _ (invGame_set _ _ _ hinv (cellOK_get g m.src hinv.2.1)) rfl
  · cases g.get m.src with
    | none => cases g.get m.dst with
      | none => exact hinv
      | some op => exact hinv
    | some cp => cases g.get m.dst with
      | none => exact hinv
      | some op => exact invGame_modHealth _ _ _ (invGame_modHealth _ _ _ hinv)
  · cases g.get m.src with
    | none => cases g.get m.dst with
      | none => exact hinv
      | some op => exact hinv
    | some cp => cases g.get m.dst with
      | none => exact hinv
      | some op => exact invGame_set _ _ _ hinv (cellOK_modHealth _ _)
  · exact invGame_blastFold _ _ (invGame_modHealth _ _ _ hinv)
  · exact hinv

/-- The search's clone-and-apply step preserves the invariant. -/
theorem invGame_simulate (g : Game) (m : CoordPair) (hinv : invGame g) :
    invGame (g.simulate_move m) := by
  unfold Game.simulate_move
  exact invGame_performMove _ m hinv

/-! ### The heuristics are bounded on invariant states -/

theorem intRange_length (lo hi : Int) : (intRange lo hi).length = (hi - lo).toNat := by
  unfold intRange
  rw [List.length_map, List.length_range]

theorem iter_rectangle_from_dim_length (dim : Int) :
    ((CoordPair.from_dim dim).iter_rectangle).length = dim.toNat * dim.toNat := by
  unfold CoordPair.from_dim CoordPair.iter_rectangle
  dsimp only
  rw [List.length_flatMap]
  have h2 : List.map (List.length ∘ fun row =>
        (intRange 0 (dim - 1 + 1)).map fun col => (⟨row, col⟩ : Coord))
        (intRange 0 (dim - 1 + 1)) =
      List.replicate (intRange 0 (dim - 1 + 1)).length dim.toNat := by
    rw [← List.map_const]
    apply List.map_congr_left
    intro a ha
    show ((intRange 0 (dim - 1 + 1)).map fun col => (⟨a, col⟩ : Coord)).length = dim.toNat
    rw [List.length_map, intRange_length]
    congr 1
    ring
  rw [h2, List.sum_replicate, smul_eq_mul, intRange_length]
  have : dim - 1 + 1 - 0 = dim := by ring
  rw [this]

theorem player_units_length_le (g : Game) (p : Player) :
    (g.player_units p).length ≤ g.options.dim.toNat * g.options.dim.toNat := by
  unfold Game.player_units
  calc (((CoordPair.from_dim g.options.dim).iter_rectangle).filterMap _).length
      ≤ ((CoordPair.from_dim g.options.dim).iter_rectangle).length :=
        List.length_filterMap_le _ _
    _ = g.options.dim.toNat * g.options.dim.toNat := iter_rectangle_from_dim_length _

/-- Generic bound for a counter fold whose steps grow `absSum` by at most
`K`. -/
theorem absSum_foldl_le {α : Type} (L : List α) (step : TypeCounts → α → TypeCounts) (K : Nat)
    (h : ∀ acc a, a ∈ L → absSum (step acc a) ≤ absSum acc + K) :
    ∀ acc, absSum (L.foldl step acc) ≤ absSum acc + K * L.length := by
  induction L with
  | nil => intro acc; simp
  | cons x L ih =>
    intro acc
    rw [List.foldl_cons, List.length_cons, Nat.mul_succ]
    have h1 := h acc x (List.mem_cons_self x L)
    have h2 := ih (fun acc2 a ha => h acc2 a (List.mem_cons_of_mem x ha)) (step acc x)
    omega

theorem e0Step_absSum (acc : TypeCounts) (cu : Coord × Unit) :
    absSum (e0Step acc cu) ≤ absSum acc + 1 := by
  have hv := Int.natAbs_add_le acc.v 1
  have ht := Int.natAbs_add_le acc.t 1
  have hf := Int.natAbs_add_le acc.f 1
  have hp := Int.natAbs_add_le acc.p 1
  have hai := Int.natAbs_add_le acc.ai 1
  unfold e0Step
  cases cu.2.type <;> (unfold absSum; dsimp only) <;> omega

theorem e2Step_absSum (acc : TypeCounts) (cu : Coord × Unit)
    (h9 : cu.2.health.natAbs ≤ 9) :
    absSum (e2Step acc cu) ≤ absSum acc + 9 := by
  have hv := Int.natAbs_add_le acc.v cu.2.health
  have ht := Int.natAbs_add_le acc.t cu.2.health
  have hf := Int.natAbs_add_le acc.f cu.2.health
  have hp := Int.natAbs_add_le acc.p cu.2.health
  have hai := Int.natAbs_add_le acc.ai cu.2.health
  unfold e2Step Unit.get_health
  cases cu.2.type <;> (unfold absSum; dsimp only) <;> omega

theorem e1AdjStep_absSum (g : Game) (p : Player) (aiUnit : Unit) (acc : TypeCounts) (ac : Coord)
    (hh : healthsWF g) (hai : aiUnit.health.natAbs ≤ 9) :
    absSum (e1AdjStep g p aiUnit acc ac) ≤ absSum acc + 1800 := by
  unfold e1AdjStep
  cases hg : g.get ac with
  | none =>
    have h1 := Int.natAbs_sub_le acc.ai (100 * aiUnit.health)
    have h2 : ((100 : Int) * aiUnit.health).natAbs = 100 * aiUnit.health.natAbs := by
      rw [Int.natAbs_mul]
      rfl
    unfold Unit.get_health
    unfold absSum
    dsimp only
    omega
  | some adj =>
    have hadj : adj.health.natAbs ≤ 9 := by
      have := healthsWF_get g ac adj hh hg
      omega
    have hm100 : ((100 : Int) * adj.health).natAbs = 100 * adj.health.natAbs := by
      rw [Int.natAbs_mul]; rfl
    have hm50 : ((50 : Int) * adj.health).natAbs = 50 * adj.health.natAbs := by
      rw [Int.natAbs_mul]; rfl
    have hm25 : ((25 : Int) * adj.health).natAbs = 25 * adj.health.natAbs := by
      rw [Int.natAbs_mul]; rfl
    have h1 := Int.natAbs_add_le acc.v (100 * adj.health)
    have h2 := Int.natAbs_add_le acc.t (100 * adj.health)
    have h3 := Int.natAbs_add_le acc.f (50 * adj.health)
    have h4 := Int.natAbs_add_le acc.p (50 * adj.health)
    have h5 := Int.natAbs_add_le acc.ai (100 * adj.health)
    have h6 := Int.natAbs_add_le acc.ai (50 * adj.health)
    have h7 := Int.natAbs_sub_le acc.v (50 * adj.health)
    have h8 := Int.natAbs_sub_le acc.t (50 * adj.health)
    have h9 := Int.natAbs_sub_le acc.f (25 * adj.health)
    have h10 := Int.natAbs_sub_le acc.p (25 * adj.health)
    unfold Unit.get_health
    dsimp only
    split_ifs with hp2 <;> cases adj.type <;> (unfold absSum; dsimp only) <;> omega

theorem e1UnitStep_absSum (g : Game) (p : Player) (acc : TypeCounts) (cu : Coord × Unit)
    (hh : healthsWF g) (hcu : cu.2.health.natAbs ≤ 9) :
    absSum (e1UnitStep g p acc cu) ≤ absSum acc + 16191 := by
  have hv := Int.natAbs_add_le acc.v 1
  have ht := Int.natAbs_add_le acc.t 1
  have hf := Int.natAbs_add_le acc.f 1
  have hp := Int.natAbs_add_le acc.p 1
  unfold e1UnitStep
  cases cu.2.type <;> (first
    | (dsimp only; unfold absSum; dsimp only; omega)
    | dsimp only)
  -- remaining: the AI branch with the inner adjacency fold
  have hstart : absSum {acc with ai := acc.ai + 999 * cu.2.get_health} ≤ absSum acc + 8991 := by
    have h1 := Int.natAbs_add_le acc.ai (999 * cu.2.health)
    have h2 : ((999 : Int) * cu.2.health).natAbs = 999 * cu.2.health.natAbs := by
      rw [Int.natAbs_mul]; rfl
    unfold Unit.get_health
    unfold absSum
    dsimp only
    omega
  have hfold := absSum_foldl_le (cu.1.iter_adjacent) (e1AdjStep g p cu.2) 1800
    (fun acc2 a ha => e1AdjStep_absSum g p cu.2 acc2 a hh hcu)
    {acc with ai := acc.ai + 999 * cu.2.get_health}
  have hlen : (cu.1.iter_adjacent).length = 4 := rfl
  rw [hlen] at hfold
  omega

theorem e1Side_absSum (g : Game) (p : Player) (hinv : invGame g) :
    absSum (e1Side g p) ≤ 16191 * 676 := by
  unfold e1Side
  have hfold := absSum_foldl_le (g.player_units p) (e1UnitStep g p) 16191
    (fun acc a ha => by
      have hmem := player_units_mem g p a ha
      have hhl := healthsWF_get g a.1 a.2 hinv.2.1 hmem.1
      exact e1UnitStep_absSum g p acc a hinv.2.1 (by omega)) {}
  have hlen := player_units_length_le g p
  have hdim : g.options.dim.toNat ≤ 26 := Int.toNat_le.mpr hinv.2.2
  have hlen2 : (g.player_units p).length ≤ 676 := by
    calc (g.player_units p).length ≤ g.options.dim.toNat * g.options.dim.toNat := hlen
      _ ≤ 26 * 26 := Nat.mul_le_mul hdim hdim
  have habs0 : absSum ({} : TypeCounts) = 0 := rfl
  have hmul := Nat.mul_le_mul_left 16191 hlen2
  omega

theorem e0Counts_absSum (g : Game) (p : Player) (hinv : invGame g) :
    absSum ((g.player_units p).foldl e0Step {}) ≤ 676 := by
  have hfold := absSum_foldl_le (g.player_units p) e0Step 1
    (fun acc a ha => e0Step_absSum acc a) {}
  have hlen := player_units_length_le g p
  have hdim : g.options.dim.toNat ≤ 26 := Int.toNat_le.mpr hinv.2.2
  have hlen2 : (g.player_units p).length ≤ 676 := by
    calc (g.player_units p).length ≤ g.options.dim.toNat * g.options.dim.toNat := hlen
      _ ≤ 26 * 26 := Nat.mul_le_mul hdim hdim
  have habs0 : absSum ({} : TypeCounts) = 0 := rfl
  omega

theorem e2Counts_absSum (g : Game) (p : Player) (hinv : invGame g) :
    absSum ((g.player_units p).foldl e2Step {}) ≤ 9 * 676 := by
  have hfold := absSum_foldl_le (g.player_units p) e2Step 9
    (fun acc a ha => by
      have hmem := player_units_mem g p a ha
      have hhl := healthsWF_get g a.1 a.2 hinv.2.1 hmem.1
      exact e2Step_absSum acc a (by omega)) {}
  have hlen := player_units_length_le g p
  have hdim : g.options.dim.toNat ≤ 26 := Int.toNat_le.mpr hinv.2.2
  have hlen2 : (g.player_units p).length ≤ 676 := by
    calc (g.player_units p).length ≤ g.options.dim.toNat * g.options.dim.toNat := hlen
      _ ≤ 26 * 26 := Nat.mul_le_mul hdim hdim
  have habs0 : absSum ({} : TypeCounts) = 0 := rfl
  have hmul := Nat.mul_le_mul_left 9 hlen2
  omega

/-- Absolute bound for the linear combination of the five counters. -/
theorem combo_natAbs_le (t : TypeCounts) (k1 k2 k3 k4 k5 : Int) :
    (k1 * t.v + k2 * t.t + k3 * t.f + k4 * t.p + k5 * t.ai).natAbs ≤
      k1.natAbs * t.v.natAbs + k2.natAbs * t.t.natAbs + k3.natAbs * t.f.natAbs +
      k4.natAbs * t.p.natAbs + k5.natAbs * t.ai.natAbs := by
  have h1 := Int.natAbs_add_le (k1 * t.v + k2 * t.t + k3 * t.f + k4 * t.p) (k5 * t.ai)
  have h2 := Int.natAbs_add_le (k1 * t.v + k2 * t.t + k3 * t.f) (k4 * t.p)
  have h3 := Int.natAbs_add_le (k1 * t.v + k2 * t.t) (k3 * t.f)
  have h4 := Int.natAbs_add_le (k1 * t.v) (k2 * t.t)
  have h5 := Int.natAbs_mul k1 t.v
  have h6 := Int.natAbs_mul k2 t.t
  have h7 := Int.natAbs_mul k3 t.f
  have h8 := Int.natAbs_mul k4 t.p
  have h9 := Int.natAbs_mul k5 t.ai
  omega

theorem e0_natAbs_le (g : Game) (hinv : invGame g) :
    (g.e0_heuristic_eval).natAbs ≤ 13518648 := by
  have key : ∀ x y : TypeCounts, absSum x ≤ 676 → absSum y ≤ 676 →
      ((3*x.v + 3*x.t + 3*x.f + 3*x.p + 9999*x.ai) -
        (3*y.v + 3*y.t + 3*y.f + 3*y.p + 9999*y.ai)).natAbs ≤ 13518648 := by
    intro x y hx hy
    have h1 := Int.natAbs_sub_le (3*x.v + 3*x.t + 3*x.f + 3*x.p + 9999*x.ai)
      (3*y.v + 3*y.t + 3*y.f + 3*y.p + 9999*y.ai)
    have h2 := combo_natAbs_le x 3 3 3 3 9999
    have h3 := combo_natAbs_le y 3 3 3 3 9999
    have hk : (3 : Int).natAbs = 3 := rfl
    have hk2 : (9999 : Int).natAbs = 9999 := rfl
    rw [hk, hk2] at h2 h3
    unfold absSum at hx hy
    omega
  have ha := e0Counts_absSum g Player.Attacker hinv
  have hd := e0Counts_absSum g Player.Defender hinv
  unfold Game.e0_heuristic_eval
  dsimp only
  split_ifs with hnp
  · exact key _ _ ha hd
  · exact key _ _ hd ha

theorem e2_natAbs_le (g : Game) (hinv : invGame g) :
    (g.e2_heuristic_eval).natAbs ≤ 12155832 := by
  have key : ∀ x y : TypeCounts, absSum x ≤ 6084 → absSum y ≤ 6084 →
      ((20*x.v + 10*x.t + 1*x.f + 1*x.p + 999*x.ai) -
        (20*y.v + 10*y.t + 1*y.f + 1*y.p + 999*y.ai)).natAbs ≤ 12155832 := by
    intro x y hx hy
    have h1 := Int.natAbs_sub_le (20*x.v + 10*x.t + 1*x.f + 1*x.p + 999*x.ai)
      (20*y.v + 10*y.t + 1*y.f + 1*y.p + 999*y.ai)
    have h2 := combo_natAbs_le x 20 10 1 1 999
    have h3 := combo_natAbs_le y 20 10 1 1 999
    have hk20 : (20 : Int).natAbs = 20 := rfl
    have hk10 : (10 : Int).natAbs = 10 := rfl
    have hk1 : (1 : Int).natAbs = 1 := rfl
    have hk999 : (999 : Int).natAbs = 999 := rfl
    rw [hk20, hk10, hk1, hk999] at h2 h3
    unfold absSum at hx hy
    omega
  have ha := e2Counts_absSum g Player.Attacker hinv
  have hd := e2Counts_absSum g Player.Defender hinv
  unfold Game.e2_heuristic_eval
  dsimp only
  split_ifs with hnp
  · exact key _ _ ha (by omega)
  · exact key _ _ (by omega) ha

theorem e1_natAbs_le (g : Game) (hinv : invGame g) :
    (g.e1_heuristic_protectAI).natAbs ≤ 21890232 := by
  have key : ∀ x y : TypeCounts, absSum x ≤ 16191 * 676 → absSum y ≤ 16191 * 676 →
      ((x.v + x.t + x.f + x.p + x.ai) - (y.v + y.t + y.f + y.p + y.ai)).natAbs ≤ 21890232 := by
    intro x y hx hy
    have h1 := Int.natAbs_sub_le (x.v + x.t + x.f + x.p + x.ai) (y.v + y.t + y.f + y.p + y.ai)
    have h2 := Int.natAbs_add_le (x.v + x.t + x.f + x.p) x.ai
    have h3 := Int.natAbs_add_le (x.v + x.t + x.f) x.p
    have h4 := Int.natAbs_add_le (x.v + x.t) x.f
    have h5 := Int.natAbs_add_le x.v x.t
    have h6 := Int.natAbs_add_le (y.v + y.t + y.f + y.p) y.ai
    have h7 := Int.natAbs_add_le (y.v + y.t + y.f) y.p
    have h8 := Int.natAbs_add_le (y.v + y.t) y.f
    have h9 := Int.natAbs_add_le y.v y.t
    unfold absSum at hx hy
    omega
  have ha := e1Side_absSum g Player.Attacker hinv
  have hd := e1Side_absSum g Player.Defender hinv
  unfold Game.e1_heuristic_protectAI
  dsimp only
  split_ifs with hnp
  · exact key _ _ ha hd
  · exact key _ _ hd ha

/-- On invariant states, the dispatched heuristic stays within the sentinel
bounds. -/
theorem heuristic_bounded (g : Game) (hinv : invGame g) :
    MIN_HEURISTIC_SCORE ≤ g.heuristic_value ∧ g.heuristic_value ≤ MAX_HEURISTIC_SCORE := by
  unfold Game.heuristic_value MIN_HEURISTIC_SCORE MAX_HEURISTIC_SCORE
  split_ifs
  · have := e2_natAbs_le g hinv
    omega
  · have := e1_natAbs_le g hinv
    omega
  · have := e0_natAbs_le g hinv
    omega

/-! ### Score projections and bounds of the two searches -/

/-- The value component of the maximizing pair fold is a plain max fold. -/
theorem pairFold_max_fst {α : Type} (f : α → Int) :
    ∀ (L : List α) (b : Int) (bm : Option α),
      (L.foldl (fun acc m =>
        let ev := f m
        if ev > acc.1 then (ev, some m) else acc) (b, bm)).1 =
      L.foldl (fun b2 m => max b2 (f m)) b := by
  intro L
  induction L with
  | nil => intro b bm; rfl
  | cons x L ih =>
    intro b bm
    rw [List.foldl_cons, List.foldl_cons]
    dsimp only
    by_cases h : f x > b
    · rw [if_pos h, ih]
      congr 1
      omega
    · rw [if_neg h, ih]
      congr 1
      omega

/-- The value component of the minimizing pair fold is a plain min fold. -/
theorem pairFold_min_fst {α : Type} (f : α → Int) :
    ∀ (L : List α) (b : Int) (bm : Option α),
      (L.foldl (fun acc m =>
        let ev := f m
        if ev < acc.1 then (ev, some m) else acc) (b, bm)).1 =
      L.foldl (fun b2 m => min b2 (f m)) b := by
  intro L
  induction L with
  | nil => intro b bm; rfl
  | cons x L ih =>
    intro b bm
    rw [List.foldl_cons, List.foldl_cons]
    dsimp only
    by_cases h : f x < b
    · rw [if_pos h, ih]
      congr 1
      omega
    · rw [if_neg h, ih]
      congr 1
      omega

/-- The score of a positive-depth maximizing `minimax`, as a max fold over
the child scores. -/
theorem minimax_succ_true_fst (g : Game) (d : Nat) :
    (g.minimax (d + 1) true).1 = g.move_candidates.foldl
      (fun b2 move => max b2 ((g.simulate_move move).minimax d false).1)
      MIN_HEURISTIC_SCORE := by
  show (g.move_candidates.foldl _ (MIN_HEURISTIC_SCORE, none)).1 = _
  exact pairFold_max_fst (fun move => ((g.simulate_move move).minimax d false).1)
    g.move_candidates MIN_HEURISTIC_SCORE none

/-- The score of a positive-depth minimizing `minimax`, as a min fold over
the child scores. -/
theorem minimax_succ_false_fst (g : Game) (d : Nat) :
    (g.minimax (d + 1) false).1 = g.move_candidates.foldl
      (fun b2 move => min b2 ((g.simulate_move move).minimax d true).1)
      MAX_HEURISTIC_SCORE := by
  show (g.move_candidates.foldl _ (MAX_HEURISTIC_SCORE, none)).1 = _
  exact pairFold_min_fst (fun move => ((g.simulate_move move).minimax d true).1)
    g.move_candidates MAX_HEURISTIC_SCORE none

/-- A max fold stays within bounds that contain its start and all entries. -/
theorem foldl_max_mem_bound {α : Type} (L : List α) (fv : α → Int) (lo hi : Int)
    (hf : ∀ m ∈ L, lo ≤ fv m ∧ fv m ≤ hi) :
    ∀ b, lo ≤ b → b ≤ hi →
      lo ≤ L.foldl (fun x m => max x (fv m)) b ∧ L.foldl (fun x m => max x (fv m)) b ≤ hi := by
  induction L with
  | nil => intro b h1 h2; exact ⟨h1, h2⟩
  | cons x L ih =>
    intro b h1 h2
    rw [List.foldl_cons]
    have hx := hf x (List.mem_cons_self x L)
    exact ih (fun m hm => hf m (List.mem_cons_of_mem x hm)) (max b (fv x))
      (le_max_of_le_left h1) (max_le h2 hx.2)

/-- A min fold stays within bounds that contain its start and all entries. -/
theorem foldl_min_mem_bound {α : Type} (L : List α) (fv : α → Int) (lo hi : Int)
    (hf : ∀ m ∈ L, lo ≤ fv m ∧ fv m ≤ hi) :
    ∀ b, lo ≤ b → b ≤ hi →
      lo ≤ L.foldl (fun x m => min x (fv m)) b ∧ L.foldl (fun x m => min x (fv m)) b ≤ hi := by
  induction L with
  | nil => intro b h1 h2; exact ⟨h1, h2⟩
  | cons x L ih =>
    intro b h1 h2
    rw [List.foldl_cons]
    have hx := hf x (List.mem_cons_self x L)
    exact ih (fun m hm => hf m (List.mem_cons_of_mem x hm)) (min b (fv x))
      (le_min h1 hx.1) (min_le_of_left_le h2)

/-- The `minimax` scores stay within the sentinel bounds on invariant states. -/
theorem minimax_bound (d : Nat) : ∀ g : Game, invGame g → ∀ role : Bool,
    MIN_HEURISTIC_SCORE ≤ (g.minimax d role).1 ∧
    (g.minimax d role).1 ≤ MAX_HEURISTIC_SCORE := by
  induction d with
  | zero =>
    intro g hinv role
    cases role <;> exact heuristic_bounded g hinv
  | succ d ih =>
    intro g hinv role
    have hMM : MIN_HEURISTIC_SCORE ≤ MAX_HEURISTIC_SCORE := by decide
    cases role
    · rw [minimax_succ_false_fst g d]
      exact foldl_min_mem_bound g.move_candidates _ _ _
        (fun m hm => ih (g.simulate_move m) (invGame_simulate g m hinv) true)
        MAX_HEURISTIC_SCORE hMM le_rfl
    · rw [minimax_succ_true_fst g d]
      exact foldl_max_mem_bound g.move_candidates _ _ _
        (fun m hm => ih (g.simulate_move m) (invGame_simulate g m hinv) false)
        MIN_HEURISTIC_SCORE le_rfl hMM

/-- A max fold is at least its start value. -/
theorem foldl_max_init_le {α : Type} (L : List α) (fv : α → Int) :
    ∀ b, b ≤ L.foldl (fun x m => max x (fv m)) b := by
  induction L with
  | nil => intro b; exact le_rfl
  | cons x L ih =>
    intro b
    rw [List.foldl_cons]
    exact le_trans (le_max_left b (fv x)) (ih (max b (fv x)))

/-- A min fold is at most its start value. -/
theorem foldl_min_init_le {α : Type} (L : List α) (fv : α → Int) :
    ∀ b, L.foldl (fun x m => min x (fv m)) b ≤ b := by
  induction L with
  | nil => intro b; exact le_rfl
  | cons x L ih =>
    intro b
    rw [List.foldl_cons]
    exact le_trans (ih (min b (fv x))) (min_le_left b (fv x))

/-- Knuth–Moore-style analysis of the source's maximizing alpha-beta loop.
Given that every child evaluation `(f (simulate m) alpha beta).1` relates to
the child's true score `fv m` by the fail-soft properties, the loop's
result relates the same way to the max fold of the true scores.  `br` is
the loop's running best, `bt` the true running max; the loop never
underestimates a fail-low result and never overestimates a fail-high
one. -/
theorem ab_loop_max_km (g : Game) (f : Game → Int → Int → Int × Option CoordPair)
    (beta : Int) (hbeta : beta ≤ MAX_HEURISTIC_SCORE) (fv : CoordPair → Int)
    (hkm : ∀ m alpha, MIN_HEURISTIC_SCORE ≤ alpha → alpha < beta →
      (MIN_HEURISTIC_SCORE ≤ fv m ∧ fv m ≤ MAX_HEURISTIC_SCORE) ∧
      (MIN_HEURISTIC_SCORE ≤ (f (g.simulate_move m) alpha beta).1 ∧
        (f (g.simulate_move m) alpha beta).1 ≤ MAX_HEURISTIC_SCORE) ∧
      (fv m ≤ alpha → (f (g.simulate_move m) alpha beta).1 ≤ alpha ∧
        fv m ≤ (f (g.simulate_move m) alpha beta).1) ∧
      (beta ≤ fv m → beta ≤ (f (g.simulate_move m) alpha beta).1 ∧
        (f (g.simulate_move m) alpha beta).1 ≤ fv m) ∧
      (alpha < fv m → fv m < beta → (f (g.simulate_move m) alpha beta).1 = fv m)) :
    ∀ (ms : List CoordPair) (br : Int) (bm : Option CoordPair) (alpha bt : Int),
      MIN_HEURISTIC_SCORE ≤ alpha → alpha < beta →
      MIN_HEURISTIC_SCORE ≤ bt → bt ≤ br → br ≤ alpha →
      (MIN_HEURISTIC_SCORE ≤ (g.alphabeta_max_loop f beta ms br bm alpha).1 ∧
        (g.alphabeta_max_loop f beta ms br bm alpha).1 ≤ MAX_HEURISTIC_SCORE) ∧
      (ms.foldl (fun b m => max b (fv m)) bt ≤ alpha →
        (g.alphabeta_max_loop f beta ms br bm alpha).1 ≤ alpha ∧
        ms.foldl (fun b m => max b (fv m)) bt ≤ (g.alphabeta_max_loop f beta ms br bm alpha).1) ∧
      (beta ≤ ms.foldl (fun b m => max b (fv m)) bt →
        beta ≤ (g.alphabeta_max_loop f beta ms br bm alpha).1 ∧
        (g.alphabeta_max_loop f beta ms br bm alpha).1 ≤
          ms.foldl (fun b m => max b (fv m)) bt) ∧
      (alpha < ms.foldl (fun b m => max b (fv m)) bt →
        ms.foldl (fun b m => max b (fv m)) bt < beta →
        (g.alphabeta_max_loop f beta ms br bm alpha).1 =
          ms.foldl (fun b m => max b (fv m)) bt) := by
  intro ms
  induction ms with
  | nil =>
    intro br bm alpha bt ha1 ha2 hb1 hb2 hb3
    simp only [Game.alphabeta_max_loop, List.foldl_nil]
    refine ⟨⟨by omega, by omega⟩, fun h => ⟨by omega, by omega⟩, fun h => ?_, fun h1 h2 => ?_⟩
    · exact absurd h (by omega)
    · exact absurd h1 (by omega)
  | cons m ms ih =>
    intro br bm alpha bt ha1 ha2 hb1 hb2 hb3
    obtain ⟨hvB, heB, hlow, hhigh, hexact⟩ := hkm m alpha ha1 ha2
    rw [List.foldl_cons]
    simp only [Game.alphabeta_max_loop]
    set E := (f (g.simulate_move m) alpha beta).1 with hE0
    by_cases hA : fv m ≤ alpha
    · -- fail-low child: window and accumulators are unchanged in effect
      have hel := hlow hA
      have ha3 : max alpha E = alpha := max_eq_left hel.1
      rw [ha3, if_neg (not_le.mpr ha2)]
      have hbr2 : (if E > br then E else br) ≤ alpha := by split_ifs <;> omega
      have hbt2a : MIN_HEURISTIC_SCORE ≤ max bt (fv m) := le_max_of_le_left hb1
      have hbt2b : max bt (fv m) ≤ (if E > br then E else br) := by
        rw [max_le_iff]
        split_ifs <;> constructor <;> omega
      exact ih (if E > br then E else br) (if E > br then some m else bm) alpha
        (max bt (fv m)) ha1 ha2 hbt2a hbt2b hbr2
    · by_cases hB : beta ≤ fv m
      · -- fail-high child: the loop prunes here with the child's lower bound
        have heh := hhigh hB
        have ha3 : max alpha E = E := max_eq_right (by omega)
        rw [ha3, if_pos heh.1]
        have hEbr : (if E > br then E else br) = E := if_pos (by omega)
        dsimp only
        rw [hEbr]
        have hVT : fv m ≤ ms.foldl (fun b m2 => max b (fv m2)) (max bt (fv m)) :=
          le_trans (le_max_right bt (fv m)) (foldl_max_init_le ms fv (max bt (fv m)))
        refine ⟨⟨by omega, by omega⟩, fun h => absurd h (by omega),
          fun h => ⟨by omega, by omega⟩, fun h1 h2 => absurd h2 (by omega)⟩
      · -- exact child: the loop advances with a tightened window
        have hEv : E = fv m := hexact (by omega) (by omega)
        have ha3 : max alpha E = E := max_eq_right (by omega)
        rw [ha3, if_neg (show ¬ beta ≤ E by omega)]
        have hEbr : (if E > br then E else br) = E := if_pos (by omega)
        rw [hEbr]
        have hVTge : fv m ≤ ms.foldl (fun b m2 => max b (fv m2)) (max bt (fv m)) :=
          le_trans (le_max_right bt (fv m)) (foldl_max_init_le ms fv (max bt (fv m)))
        obtain ⟨ihB, ihLow, ihHigh, ihExact⟩ :=
          ih E (if E > br then some m else bm) E (max bt (fv m))
            (by omega) (by omega) (le_max_of_le_left hb1)
            (by rw [max_le_iff]; constructor <;> omega) le_rfl
        refine ⟨ihB, fun h => absurd h (by omega), ihHigh, fun h1 h2 => ?_⟩
        by_cases hcase : E < ms.foldl (fun b m2 => max b (fv m2)) (max bt (fv m))
        · exact ihExact hcase h2
        · have h3 := not_lt.mp hcase
          have h4 := ihLow h3
          omega

/-- Mirror of `ab_loop_max_km` for the source's minimizing alpha-beta
loop. -/
theorem ab_loop_min_km (g : Game) (f : Game → Int → Int → Int × Option CoordPair)
    (alpha : Int) (halpha : MIN_HEURISTIC_SCORE ≤ alpha) (fv : CoordPair → Int)
    (hkm : ∀ m beta, beta ≤ MAX_HEURISTIC_SCORE → alpha < beta →
      (MIN_HEURISTIC_SCORE ≤ fv m ∧ fv m ≤ MAX_HEURISTIC_SCORE) ∧
      (MIN_HEURISTIC_SCORE ≤ (f (g.simulate_move m) alpha beta).1 ∧
        (f (g.simulate_move m) alpha beta).1 ≤ MAX_HEURISTIC_SCORE) ∧
      (fv m ≤ alpha → (f (g.simulate_move m) alpha beta).1 ≤ alpha ∧
        fv m ≤ (f (g.simulate_move m) alpha beta).1) ∧
      (beta ≤ fv m → beta ≤ (f (g.simulate_move m) alpha beta).1 ∧
        (f (g.simulate_move m) alpha beta).1 ≤ fv m) ∧
      (alpha < fv m → fv m < beta → (f (g.simulate_move m) alpha beta).1 = fv m)) :
    ∀ (ms : List CoordPair) (br : Int) (bm : Option CoordPair) (beta bt : Int),
      beta ≤ MAX_HEURISTIC_SCORE → alpha < beta →
      bt ≤ MAX_HEURISTIC_SCORE → br ≤ bt → beta ≤ br →
      (MIN_HEURISTIC_SCORE ≤ (g.alphabeta_min_loop f alpha ms br bm beta).1 ∧
        (g.alphabeta_min_loop f alpha ms br bm beta).1 ≤ MAX_HEURISTIC_SCORE) ∧
      (beta ≤ ms.foldl (fun b m => min b (fv m)) bt →
        beta ≤ (g.alphabeta_min_loop f alpha ms br bm beta).1 ∧
        (g.alphabeta_min_loop f alpha ms br bm beta).1 ≤
          ms.foldl (fun b m => min b (fv m)) bt) ∧
      (ms.foldl (fun b m => min b (fv m)) bt ≤ alpha →
        (g.alphabeta_min_loop f alpha ms br bm beta).1 ≤ alpha ∧
        ms.foldl (fun b m => min b (fv m)) bt ≤
          (g.alphabeta_min_loop f alpha ms br bm beta).1) ∧
      (alpha < ms.foldl (fun b m => min b (fv m)) bt →
        ms.foldl (fun b m => min b (fv m)) bt < beta →
        (g.alphabeta_min_loop f alpha ms br bm beta).1 =
          ms.foldl (fun b m => min b (fv m)) bt) := by
  intro ms
  induction ms with
  | nil =>
    intro br bm beta bt hc1 hc2 hd1 hd2 hd3
    simp only [Game.alphabeta_min_loop, List.foldl_nil]
    refine ⟨⟨by omega, by omega⟩, fun h => ⟨by omega, by omega⟩, fun h => ?_, fun h1 h2 => ?_⟩
    · exact absurd h (by omega)
    · exact absurd h2 (by omega)
  | cons m ms ih =>
    intro br bm beta bt hc1 hc2 hd1 hd2 hd3
    obtain ⟨hvB, heB, hlow, hhigh, hexact⟩ := hkm m beta hc1 hc2
    rw [List.foldl_cons]
    simp only [Game.alphabeta_min_loop]
    set E := (f (g.simulate_move m) alpha beta).1 with hE0
    by_cases hA : beta ≤ fv m
    · -- fail-high child: window and accumulators are unchanged in effect
      have heh := hhigh hA
      have hb3 : min beta E = beta := min_eq_left heh.1
      rw [hb3, if_neg (not_le.mpr hc2)]
      have hbr2 : beta ≤ (if E < br then E else br) := by split_ifs <;> omega
      have hbt2a : min bt (fv m) ≤ MAX_HEURISTIC_SCORE := min_le_of_left_le hd1
      have hbt2b : (if E < br then E else br) ≤ min bt (fv m) := by
        rw [le_min_iff]
        split_ifs <;> constructor <;> omega
      exact ih (if E < br then E else br) (if E < br then some m else bm) beta
        (min bt (fv m)) hc1 hc2 hbt2a hbt2b hbr2
    · by_cases hB : fv m ≤ alpha
      · -- fail-low child: the loop prunes here with the child's upper bound
        have hel := hlow hB
        have hb3 : min beta E = E := min_eq_right (by omega)
        rw [hb3, if_pos (show E ≤ alpha by omega)]
        have hEbr : (if E < br then E else br) = E := if_pos (by omega)
        dsimp only
        rw [hEbr]
        have hVT : ms.foldl (fun b m2 => min b (fv m2)) (min bt (fv m)) ≤ fv m :=
          le_trans (foldl_min_init_le ms fv (min bt (fv m))) (min_le_right bt (fv m))
        refine ⟨⟨by omega, by omega⟩, fun h => absurd h (by omega),
          fun h => ⟨by omega, by omega⟩, fun h1 h2 => absurd h1 (by omega)⟩
      · -- exact child: the loop advances with a tightened window
        have hEv : E = fv m := hexact (by omega) (by omega)
        have hb3 : min beta E = E := min_eq_right (by omega)
        rw [hb3, if_neg (show ¬ E ≤ alpha by omega)]
        have hEbr : (if E < br then E else br) = E := if_pos (by omega)
        rw [hEbr]
        have hVTle : ms.foldl (fun b m2 => min b (fv m2)) (min bt (fv m)) ≤ fv m :=
          le_trans (foldl_min_init_le ms fv (min bt (fv m))) (min_le_right bt (fv m))
        obtain ⟨ihB, ihHigh, ihLow, ihExact⟩ :=
          ih E (if E < br then some m else bm) E (min bt (fv m))
            (by omega) (by omega) (min_le_of_left_le hd1)
            (by rw [le_min_iff]; constructor <;> omega) le_rfl
        refine ⟨ihB, fun h => absurd h (by omega), ihLow, fun h1 h2 => ?_⟩
        by_cases hcase : ms.foldl (fun b m2 => min b (fv m2)) (min bt (fv m)) < E
        · exact ihExact h1 hcase
        · have h3 := not_lt.mp hcase
          have h4 := ihHigh h3
          omega

/-- Knuth–Moore theorem for the source's searches: on invariant states and
any window `MIN ≤ alpha < beta ≤ MAX`, the alpha-beta score fails low with
an upper bound, fails high with a lower bound, and equals the minimax score
inside the window. -/
theorem alphabeta_km (d : Nat) : ∀ (g : Game) (role : Bool) (alpha beta : Int), invGame g →
    MIN_HEURISTIC_SCORE ≤ alpha → beta ≤ MAX_HEURISTIC_SCORE → alpha < beta →
    (MIN_HEURISTIC_SCORE ≤ (g.alphabeta d alpha beta role).1 ∧
      (g.alphabeta d alpha beta role).1 ≤ MAX_HEURISTIC_SCORE) ∧
    ((g.minimax d role).1 ≤ alpha → (g.alphabeta d alpha beta role).1 ≤ alpha ∧
      (g.minimax d role).1 ≤ (g.alphabeta d alpha beta role).1) ∧
    (beta ≤ (g.minimax d role).1 → beta ≤ (g.alphabeta d alpha beta role).1 ∧
      (g.alphabeta d alpha beta role).1 ≤ (g.minimax d role).1) ∧
    (alpha < (g.minimax d role).1 → (g.minimax d role).1 < beta →
      (g.alphabeta d alpha beta role).1 = (g.minimax d role).1) := by
  induction d with
  | zero =>
    intro g role alpha beta hinv h1 h2 h3
    have hb := heuristic_bounded g hinv
    have hm : (g.minimax 0 role).1 = g.heuristic_value := by cases role <;> rfl
    have ha : (g.alphabeta 0 alpha beta role).1 = g.heuristic_value := by cases role <;> rfl
    rw [hm, ha]
    exact ⟨hb, fun h => ⟨h, le_rfl⟩, fun h => ⟨h, le_rfl⟩, fun h4 h5 => rfl⟩
  | succ d ih =>
    intro g role alpha beta hinv h1 h2 h3
    cases role
    · have hmmfst := minimax_succ_false_fst g d
      have habfst : g.alphabeta (d + 1) alpha beta false =
          g.alphabeta_min_loop (fun g2 a b => g2.alphabeta d a b true) alpha
            g.move_candidates MAX_HEURISTIC_SCORE none beta := rfl
      have hloop := ab_loop_min_km g (fun g2 a b => g2.alphabeta d a b true) alpha h1
        (fun m => ((g.simulate_move m).minimax d true).1)
        (fun m beta2 hbb hab => by
          have hchild := ih (g.simulate_move m) true alpha beta2
            (invGame_simulate g m hinv) h1 hbb hab
          have hmb := minimax_bound d (g.simulate_move m) (invGame_simulate g m hinv) true
          exact ⟨hmb, hchild.1, hchild.2.1, hchild.2.2.1, hchild.2.2.2⟩)
        g.move_candidates MAX_HEURISTIC_SCORE none beta MAX_HEURISTIC_SCORE h2 h3
        le_rfl le_rfl h2
      rw [hmmfst, habfst]
      exact ⟨hloop.1, hloop.2.2.1, hloop.2.1, hloop.2.2.2⟩
    · have hmmfst := minimax_succ_true_fst g d
      have habfst : g.alphabeta (d + 1) alpha beta true =
          g.alphabeta_max_loop (fun g2 a b => g2.alphabeta d a b false) beta
            g.move_candidates MIN_HEURISTIC_SCORE none alpha := rfl
      have hloop := ab_loop_max_km g (fun g2 a b => g2.alphabeta d a b false) beta h2
        (fun m => ((g.simulate_move m).minimax d false).1)
        (fun m alpha2 haa hab => by
          have hchild := ih (g.simulate_move m) false alpha2 beta
            (invGame_simulate g m hinv) haa h2 hab
          have hmb := minimax_bound d (g.simulate_move m) (invGame_simulate g m hinv) false
          exact ⟨hmb, hchild.1, hchild.2.1, hchild.2.2.1, hchild.2.2.2⟩)
        g.move_candidates MIN_HEURISTIC_SCORE none alpha MIN_HEURISTIC_SCORE h1 h3
        le_rfl le_rfl h1
      rw [hmmfst, habfst]
      exact hloop

/-- A maximizing pair fold whose accumulator already dominates every entry
never changes. -/
theorem pairFold_stuck {α : Type} (f : α → Int) :
    ∀ (L : List α) (acc : Int × Option α), (∀ m ∈ L, f m ≤ acc.1) →
      L.foldl (fun a m =>
        let ev := f m
        if ev > a.1 then (ev, some m) else a) acc = acc := by
  intro L
  induction L with
  | nil => intro acc h; rfl
  | cons x L ih =>
    intro acc h
    rw [List.foldl_cons]
    dsimp only
    rw [if_neg (not_lt.mpr (h x (List.mem_cons_self x L)))]
    exact ih acc fun m hm => h m (List.mem_cons_of_mem x hm)

/-- At the root window the maximizing loop, run with `alpha` equal to its
running best, traces the plain minimax fold exactly, move included: every
child score inside the window is exact, a child reaching
`MAX_HEURISTIC_SCORE` prunes the rest but no later child can beat it. -/
theorem ab_root_loop_eq (g : Game) (f : Game → Int → Int → Int × Option CoordPair)
    (fv : CoordPair → Int)
    (hvB : ∀ m, MIN_HEURISTIC_SCORE ≤ fv m ∧ fv m ≤ MAX_HEURISTIC_SCORE)
    (hkm : ∀ m alpha, MIN_HEURISTIC_SCORE ≤ alpha → alpha < MAX_HEURISTIC_SCORE →
      (fv m ≤ alpha → (f (g.simulate_move m) alpha MAX_HEURISTIC_SCORE).1 ≤ alpha ∧
        fv m ≤ (f (g.simulate_move m) alpha MAX_HEURISTIC_SCORE).1) ∧
      (MAX_HEURISTIC_SCORE ≤ fv m →
        MAX_HEURISTIC_SCORE ≤ (f (g.simulate_move m) alpha MAX_HEURISTIC_SCORE).1 ∧
        (f (g.simulate_move m) alpha MAX_HEURISTIC_SCORE).1 ≤ fv m) ∧
      (alpha < fv m → fv m < MAX_HEURISTIC_SCORE →
        (f (g.simulate_move m) alpha MAX_HEURISTIC_SCORE).1 = fv m)) :
    ∀ (ms : List CoordPair) (br : Int) (bm : Option CoordPair),
      MIN_HEURISTIC_SCORE ≤ br → br < MAX_HEURISTIC_SCORE →
      g.alphabeta_max_loop f MAX_HEURISTIC_SCORE ms br bm br =
        ms.foldl (fun acc m =>
          let ev := fv m
          if ev > acc.1 then (ev, some m) else acc) (br, bm) := by
  intro ms
  induction ms with
  | nil => intro br bm h1 h2; rfl
  | cons m ms ih =>
    intro br bm h1 h2
    obtain ⟨hlow, hhigh, hexact⟩ := hkm m br h1 h2
    simp only [Game.alphabeta_max_loop, List.foldl_cons]
    dsimp only
    set E := (f (g.simulate_move m) br MAX_HEURISTIC_SCORE).1 with hE0
    by_cases hA : fv m ≤ br
    · have hel := hlow hA
      rw [if_neg (not_lt.mpr hel.1), if_neg (not_lt.mpr hel.1), if_neg (not_lt.mpr hA)]
      have ha2 : max br E = br := max_eq_left hel.1
      rw [ha2, if_neg (not_le.mpr h2)]
      exact ih br bm h1 h2
    · by_cases hB : fv m < MAX_HEURISTIC_SCORE
      · have hEv : E = fv m := hexact (by omega) hB
        rw [if_pos (show E > br by omega), if_pos (show E > br by omega),
          if_pos (show fv m > br by omega)]
        have ha2 : max br E = E := max_eq_right (by omega)
        rw [ha2, if_neg (show ¬ MAX_HEURISTIC_SCORE ≤ E by omega), hEv]
        exact ih (fv m) (some m) (by omega) hB
      · have hvm : fv m = MAX_HEURISTIC_SCORE := le_antisymm (hvB m).2 (not_lt.mp hB)
        have heh := hhigh (by omega)
        have hEv : E = MAX_HEURISTIC_SCORE := by omega
        rw [if_pos (show E > br by omega), if_pos (show E > br by omega),
          if_pos (show fv m > br by omega)]
        have ha2 : max br E = E := max_eq_right (by omega)
        rw [ha2, if_pos (show MAX_HEURISTIC_SCORE ≤ E by omega)]
        rw [pairFold_stuck fv ms (fv m, some m)
          (fun m2 hm2 => by rw [hvm]; exact (hvB m2).2)]
        rw [hEv, hvm]

/-- C3: with the full sentinel window, alpha-beta returns exactly what
plain minimax returns — the score and even the chosen move — on every
invariant state (which includes every reachable state, by
`invGame_performMove`) and at every depth, the cancellation flag never
tripped. -/
theorem claim_c3_alphabeta_equals_minimax (g : Game) (d : Nat) (hinv : invGame g) :
    g.alphabeta d MIN_HEURISTIC_SCORE MAX_HEURISTIC_SCORE true = g.minimax d true := by
  cases d with
  | zero => rfl
  | succ d =>
    have hroot := ab_root_loop_eq g (fun g2 a b => g2.alphabeta d a b false)
      (fun m => ((g.simulate_move m).minimax d false).1)
      (fun m => minimax_bound d (g.simulate_move m) (invGame_simulate g m hinv) false)
      (fun m alpha haa hab => by
        have hchild := alphabeta_km d (g.simulate_move m) false alpha MAX_HEURISTIC_SCORE
          (invGame_simulate g m hinv) haa le_rfl hab
        exact ⟨hchild.2.1, hchild.2.2.1, hchild.2.2.2⟩)
      g.move_candidates MIN_HEURISTIC_SCORE none le_rfl (by decide)
    exact hroot

/-- Witness for C3 at the blast-scenario board, depth 2. -/
theorem claim_c3_alphabeta_equals_minimax_witness :
    invGame exampleBlastGame ∧
    exampleBlastGame.alphabeta 2 MIN_HEURISTIC_SCORE MAX_HEURISTIC_SCORE true =
      exampleBlastGame.minimax 2 true :=
  ⟨by decide, claim_c3_alphabeta_equals_minimax exampleBlastGame 2 (by decide)⟩

end AIWargame
